import Mathlib

/-!
Verification development for the calorie-tracker backend's meal-analysis
pipeline (file `src/services/geminiService.js`, enhanced per-dish version).

JavaScript values are shallowly embedded as the inductive `JsVal`.
JS numbers are modelled as exact rationals, with `JsVal.nan` as a separate
constructor standing for the non-finite `NaN` value; `Math.round` is
round-half-up, which coincides with Mathlib's `round` on `ℚ`.
Fallible operations return `Option`/`Except`.
-/

attribute [local semireducible] Rat.add Rat.mul Rat.inv Rat.sub Rat.ofScientific

/-- Whitespace in the sense of JavaScript `String.prototype.trim` (the ASCII
core of the WhiteSpace/LineTerminator productions). -/
def wsChar (c : Char) : Bool :=
  c = ' ' ∨ c = '\t' ∨ c = '\n' ∨ c = '\r' ∨ c = '\x0b' ∨ c = '\x0c'

/-- Drop leading whitespace from a character list. -/
def dropWs : List Char → List Char
  | [] => []
  | c :: cs => if wsChar c then dropWs cs else c :: cs

/-- JavaScript `s.trim()`: strip whitespace from both ends. -/
def jsTrim (s : String) : String :=
  ⟨((dropWs s.toList).reverse |> dropWs).reverse⟩

/-- Shallow embedding of the JavaScript values flowing through the pipeline.
`undefined` is `undefined`, `nan` is the floating-point `NaN`; all finite numbers
are carried as exact rationals. -/
inductive JsVal where
  | undefined : JsVal
  | null : JsVal
  | bool (b : Bool) : JsVal
  | num (q : ℚ) : JsVal
  | nan : JsVal
  | str (s : String) : JsVal
  | arr (xs : List JsVal) : JsVal
  | obj (fields : List (String × JsVal)) : JsVal

/-- JavaScript truthiness: `undefined`, `null`, `false`, `0`, `NaN` and the
empty string are falsy; every object and array is truthy. -/
def truthy : JsVal → Bool
  | .undefined => false
  | .null => false
  | .bool b => b
  | .num q => q != 0
  | .nan => false
  | .str s => !s.isEmpty
  | .arr _ => true
  | .obj _ => true

/-- The JavaScript short-circuiting `a || b`. -/
def jsOr (a b : JsVal) : JsVal := if truthy a then a else b

/-- Lookup of a key in an object's field list (first occurrence wins; objects
built by the embedded JSON parser have unique keys). -/
def lookupField : List (String × JsVal) → String → JsVal
  | [], _ => .undefined
  | (k, v) :: rest, key => if k = key then v else lookupField rest key

/-- Property access `v?.key` / `v.key` as used by the service: on objects it
looks the key up, on every other value (numbers, strings, arrays, `null`,
`undefined`) it yields `undefined`, matching the optional-chained accesses in
the source. -/
def getProp : JsVal → String → JsVal
  | .obj fields, key => lookupField fields key
  | _, _ => .undefined

/-- Decimal string-to-number scanning used by `strToNumber`: consumes leading
digits, returning the accumulated value, the number of digits consumed, and
the rest. -/
def readDigits : List Char → ℕ → ℕ → ℕ × ℕ × List Char
  | [], acc, cnt => (acc, cnt, [])
  | c :: cs, acc, cnt =>
    if 48 ≤ c.toNat ∧ c.toNat ≤ 57 then readDigits cs (acc * 10 + (c.toNat - 48)) (cnt + 1)
    else (acc, cnt, c :: cs)

/-- JavaScript `Number(string)` on the decimal forms: trimmed, empty means 0,
otherwise an optional sign, digits with an optional fraction and exponent.
Hex literals and `Infinity` are outside the decimal core and map to `none`
(treated as non-finite); no claim depends on those forms. -/
def strToNumber (s : String) : Option ℚ :=
  let cs := (jsTrim s).toList
  if cs = [] then some 0 else
  let sgnRest : ℚ × List Char :=
    match cs with
    | '-' :: r => (-1, r)
    | '+' :: r => (1, r)
    | r => (1, r)
  let ipRes := readDigits sgnRest.2 0 0
  let frRes : ℕ × ℕ × List Char :=
    match ipRes.2.2 with
    | '.' :: r => readDigits r 0 0
    | r => (0, 0, r)
  if ipRes.2.1 + frRes.2.1 = 0 then none else
  match frRes.2.2 with
  | [] => some (sgnRest.1 * ((ipRes.1 : ℚ) + (frRes.1 : ℚ) / 10 ^ frRes.2.1))
  | 'e' :: r =>
    match (match r with
           | '-' :: r2 => some ((-1 : ℤ), r2)
           | '+' :: r2 => some ((1 : ℤ), r2)
           | r2 => some (1, r2)) with
    | some (es, r2) =>
      let eRes := readDigits r2 0 0
      if eRes.2.1 = 0 ∨ eRes.2.2 ≠ [] then none else
      some (sgnRest.1 * ((ipRes.1 : ℚ) + (frRes.1 : ℚ) / 10 ^ frRes.2.1) * (10 : ℚ) ^ (es * eRes.1))
    | none => none
  | 'E' :: r =>
    match (match r with
           | '-' :: r2 => some ((-1 : ℤ), r2)
           | '+' :: r2 => some ((1 : ℤ), r2)
           | r2 => some (1, r2)) with
    | some (es, r2) =>
      let eRes := readDigits r2 0 0
      if eRes.2.1 = 0 ∨ eRes.2.2 ≠ [] then none else
      some (sgnRest.1 * ((ipRes.1 : ℚ) + (frRes.1 : ℚ) / 10 ^ frRes.2.1) * (10 : ℚ) ^ (es * eRes.1))
    | none => none
  | _ => none

/-- JavaScript `ToNumber` coercion, as applied by `Math.round`, `Math.max`
and multiplication. `none` stands for `NaN`. Arrays coerce through their
joined string form; the one-element shapes that occur are modelled, deeper
`ToPrimitive` chains map to `none`. -/
def toNumber : JsVal → Option ℚ
  | .undefined => none
  | .null => some 0
  | .bool b => some (if b then 1 else 0)
  | .num q => some q
  | .nan => none
  | .str s => strToNumber s
  | .arr [] => some 0
  | .arr [.num q] => some q
  | .arr [.str s] => strToNumber s
  | .arr [.null] => some 0
  | .arr _ => none
  | .obj _ => none

/-- `Math.max(0, x)`: `NaN` (modelled as `none`) propagates. -/
def jsMax0 : Option ℚ → Option ℚ
  | none => none
  | some q => some (max 0 q)

/-- One nutrition quantity `\x7b value, unit \x7d`; the value is `none` when the
computation produced `NaN`. -/
structure NutQty where
  value : Option ℚ
  unit : String
deriving DecidableEq

/-- The four-field nutrition record attached to each dish and to the total. -/
structure DishNutrition where
  calories : NutQty
  protein : NutQty
  carbs : NutQty
  fat : NutQty
deriving DecidableEq

/-- A normalized dish. -/
structure Dish where
  name : String
  nutrition : DishNutrition
deriving DecidableEq

/-- The normalized analysis result: canonical `dishes`/`total` plus the
legacy flat fields spread into the same object by the source. -/
structure AnalysisResult where
  dishes : List Dish
  total : DishNutrition
  detected_food_items : List String
  calories : Option ℚ
  protein_g : Option ℚ
  carbs_g : Option ℚ
  fat_g : Option ℚ
deriving DecidableEq

/-- Source helper `roundToTwo`, line 108: `Math.round((num || 0) * 100) / 100`
after JS numeric coercion of the operand. -/
def roundToTwo (v : JsVal) : Option ℚ :=
  (toNumber (jsOr v (.num 0))).map (fun q => ((round (q * 100) : ℤ) : ℚ) / 100)

/-- The calories branch of `formatNutritionWithUnits`, line 112:
`Math.max(0, Math.round(nutrition.calories || 0))`. -/
def calorieFormat (v : JsVal) : Option ℚ :=
  jsMax0 ((toNumber (jsOr v (.num 0))).map (fun q => ((round q : ℤ) : ℚ)))

/-- The gram branches of `formatNutritionWithUnits`, lines 113-115:
`Math.max(0, roundToTwo(nutrition.X || 0))`. -/
def gramFormat (v : JsVal) : Option ℚ :=
  jsMax0 (roundToTwo (jsOr v (.num 0)))

/-- Source helper `formatNutritionWithUnits`, lines 111-116. -/
def formatNutritionWithUnits (nutrition : JsVal) : DishNutrition :=
  { calories := ⟨calorieFormat (getProp nutrition "calories"), "kcal"⟩
    protein := ⟨gramFormat (getProp nutrition "protein_g"), "g"⟩
    carbs := ⟨gramFormat (getProp nutrition "carbs_g"), "g"⟩
    fat := ⟨gramFormat (getProp nutrition "fat_g"), "g"⟩ }

/-- Filter predicate of line 122:
`dish && typeof dish.name === 'string' && dish.name.trim().length > 0`. -/
def validDishFilter (dish : JsVal) : Bool :=
  truthy dish &&
    (match getProp dish "name" with
     | .str s => decide (0 < (jsTrim s).length)
     | _ => false)

/-- Mapping step of lines 123-126: trimmed name plus formatted nutrition of
`dish.nutrition || \x7b\x7d`. -/
def mkDish (dish : JsVal) : Dish :=
  { name := (match getProp dish "name" with | .str s => jsTrim s | _ => "")
    nutrition := formatNutritionWithUnits (jsOr (getProp dish "nutrition") (.obj [])) }

/-- Dish extraction, lines 119-127: `data?.dishes` must be a non-empty array;
entries failing the name filter are dropped. -/
def extractDishes (data : JsVal) : List Dish :=
  match getProp data "dishes" with
  | .arr ds => if 0 < ds.length then (ds.filter validDishFilter).map mkDish else []
  | _ => []

/-- The object literal of lines 133-138 feeding the fallback dish: each field
is `data?.X || data?.total?.X || 0` (JS `||` is left-associative). -/
def fallbackNutrition (data : JsVal) : JsVal :=
  .obj [("calories", jsOr (jsOr (getProp data "calories") (getProp (getProp data "total") "calories")) (.num 0)),
        ("protein_g", jsOr (jsOr (getProp data "protein_g") (getProp (getProp data "total") "protein_g")) (.num 0)),
        ("carbs_g", jsOr (jsOr (getProp data "carbs_g") (getProp (getProp data "total") "carbs_g")) (.num 0)),
        ("fat_g", jsOr (jsOr (getProp data "fat_g") (getProp (getProp data "total") "fat_g")) (.num 0))]

/-- The fallback dish of lines 130-140. -/
def fallbackDish (data : JsVal) : Dish :=
  { name := "Unidentified food items"
    nutrition := formatNutritionWithUnits (fallbackNutrition data) }

/-- Accumulator record of the `reduce` on lines 149-154. -/
structure CalcTotal where
  calories : Option ℚ
  protein_g : Option ℚ
  carbs_g : Option ℚ
  fat_g : Option ℚ
deriving DecidableEq

/-- JS `+` on numbers already coerced: `NaN` poisons the sum. -/
def jsAdd : Option ℚ → Option ℚ → Option ℚ
  | some a, some b => some (a + b)
  | _, _ => none

/-- One step of the `reduce` on lines 149-154. -/
def calcStep (acc : CalcTotal) (dish : Dish) : CalcTotal :=
  { calories := jsAdd acc.calories dish.nutrition.calories.value
    protein_g := jsAdd acc.protein_g dish.nutrition.protein.value
    carbs_g := jsAdd acc.carbs_g dish.nutrition.carbs.value
    fat_g := jsAdd acc.fat_g dish.nutrition.fat.value }

/-- The dish-sum `reduce` of lines 149-154. -/
def calculatedTotal (dishes : List Dish) : CalcTotal :=
  dishes.foldl calcStep
    { calories := some 0, protein_g := some 0, carbs_g := some 0, fat_g := some 0 }

/-- The exact field-wise sum of dish values (`NaN` poisons the sum), used to
state the total-reconciliation properties. -/
def sumValues (f : Dish → Option ℚ) (dishes : List Dish) : Option ℚ :=
  dishes.foldl (fun a d => jsAdd a (f d)) (some 0)

/-- Reading an option-valued sum back as the JS value handed to
`formatNutritionWithUnits` on line 156. -/
def numToVal : Option ℚ → JsVal
  | some q => .num q
  | none => .nan

/-- The plain object produced by the `reduce`, as passed to
`formatNutritionWithUnits`. -/
def calcTotalVal (t : CalcTotal) : JsVal :=
  .obj [("calories", numToVal t.calories), ("protein_g", numToVal t.protein_g),
        ("carbs_g", numToVal t.carbs_g), ("fat_g", numToVal t.fat_g)]

/-- The guard of line 144: `data?.total && typeof data.total === 'object'`.
`typeof` is `'object'` for plain objects, arrays and `null`; `null` is then
excluded by truthiness. -/
def hasObjectTotal (data : JsVal) : Bool :=
  truthy (getProp data "total") &&
    (match getProp data "total" with
     | .obj _ => true
     | .arr _ => true
     | .null => true
     | _ => false)

/-- Source function `validateAndNormalizeNutritionData`, lines 106-175. -/
def validateAndNormalizeNutritionData (data : JsVal) : AnalysisResult :=
  let dishes0 := extractDishes data
  let dishes := if dishes0.length = 0 then [fallbackDish data] else dishes0
  let total :=
    if hasObjectTotal data
    then formatNutritionWithUnits (getProp data "total")
    else formatNutritionWithUnits (calcTotalVal (calculatedTotal dishes))
  { dishes := dishes
    total := total
    detected_food_items := dishes.map Dish.name
    calories := total.calories.value
    protein_g := total.protein.value
    carbs_g := total.carbs.value
    fat_g := total.fat.value }

/-- Literal `\x7b` as a character, written via its code point. -/
def obrace : Char := Char.ofNat 123

/-- Literal `\x7d` as a character, written via its code point. -/
def cbrace : Char := Char.ofNat 125

/-- JSON whitespace (`ws` production of RFC 8259), as accepted by
`JSON.parse`. -/
def jsonWs (c : Char) : Bool :=
  c = ' ' ∨ c = '\t' ∨ c = '\n' ∨ c = '\r'

/-- Skip leading JSON whitespace. -/
def skipWs : List Char → List Char
  | [] => []
  | c :: cs => if jsonWs c then skipWs cs else c :: cs

/-- Decimal digit test. -/
def isDigitCh (c : Char) : Bool := 48 ≤ c.toNat ∧ c.toNat ≤ 57

/-- Hexadecimal digit value, for `\u` escapes. -/
def hexVal (c : Char) : Option ℕ :=
  if 48 ≤ c.toNat ∧ c.toNat ≤ 57 then some (c.toNat - 48)
  else if 97 ≤ c.toNat ∧ c.toNat ≤ 102 then some (c.toNat - 87)
  else if 65 ≤ c.toNat ∧ c.toNat ≤ 70 then some (c.toNat - 55)
  else none

/-- Body of a JSON string literal after the opening quote: raw characters,
the two-character escapes, and `\uXXXX`; raw control characters are rejected
as `JSON.parse` does. -/
def parseStringAux : List Char → List Char → Option (String × List Char)
  | _, [] => none
  | acc, c :: cs =>
    if c = '\"' then some (⟨acc.reverse⟩, cs)
    else if c = '\\' then
      match cs with
      | [] => none
      | e :: cs2 =>
        if e = '\"' then parseStringAux ('\"' :: acc) cs2
        else if e = '\\' then parseStringAux ('\\' :: acc) cs2
        else if e = '/' then parseStringAux ('/' :: acc) cs2
        else if e = 'b' then parseStringAux ('\x08' :: acc) cs2
        else if e = 'f' then parseStringAux ('\x0c' :: acc) cs2
        else if e = 'n' then parseStringAux ('\n' :: acc) cs2
        else if e = 'r' then parseStringAux ('\r' :: acc) cs2
        else if e = 't' then parseStringAux ('\t' :: acc) cs2
        else if e = 'u' then
          match cs2 with
          | h1 :: h2 :: h3 :: h4 :: cs3 =>
            match hexVal h1, hexVal h2, hexVal h3, hexVal h4 with
            | some a, some b, some c2, some d =>
              parseStringAux (Char.ofNat (((a * 16 + b) * 16 + c2) * 16 + d) :: acc) cs3
            | _, _, _, _ => none
          | _ => none
        else none
    else if c.toNat < 32 then none
    else parseStringAux (c :: acc) cs

/-- A JSON string literal including the opening quote. -/
def parseJsonString : List Char → Option (String × List Char)
  | '\"' :: cs => parseStringAux [] cs
  | _ => none

/-- Match an expected literal tail such as `rue` of `true`. -/
def stripLit : List Char → List Char → Option (List Char)
  | [], rest => some rest
  | l :: ls, c :: rest => if c = l then stripLit ls rest else none
  | _ :: _, [] => none

/-- A JSON number per RFC 8259: optional minus, integer part without leading
zeros, optional fraction, optional exponent; evaluated exactly over `ℚ`. -/
def parseNumber (cs : List Char) : Option (ℚ × List Char) :=
  let sgnP : ℚ × List Char :=
    match cs with
    | c :: r => if c = '-' then (-1, r) else (1, c :: r)
    | [] => (1, [])
  match sgnP.2 with
  | [] => none
  | c :: r0 =>
    if ¬ isDigitCh c then none else
    let ipP : ℕ × List Char :=
      if c = '0' then (0, r0)
      else ((readDigits (c :: r0) 0 0).1, (readDigits (c :: r0) 0 0).2.2)
    let frP : Option (ℚ × List Char) :=
      match ipP.2 with
      | c1 :: r1 =>
        if c1 = '.' then
          let t := readDigits r1 0 0
          if t.2.1 = 0 then none else some ((t.1 : ℚ) / 10 ^ t.2.1, t.2.2)
        else some (0, c1 :: r1)
      | [] => some (0, [])
    match frP with
    | none => none
    | some (fv, r2) =>
      let exP : Option (ℚ × List Char) :=
        match r2 with
        | c2 :: r3 =>
          if c2 = 'e' ∨ c2 = 'E' then
            let sgnE : ℤ × List Char :=
              match r3 with
              | c3 :: r4 =>
                if c3 = '-' then (-1, r4) else if c3 = '+' then (1, r4) else (1, c3 :: r4)
              | [] => (1, [])
            let t := readDigits sgnE.2 0 0
            if t.2.1 = 0 then none else some ((10 : ℚ) ^ (sgnE.1 * t.1), t.2.2)
          else some (1, c2 :: r3)
        | [] => some (1, [])
      match exP with
      | none => none
      | some (ex, r5) => some (sgnP.1 * ((ipP.1 : ℚ) + fv) * ex, r5)

/-- JavaScript duplicate-key object semantics: a later duplicate keeps the
first key's position but overwrites its value. -/
def objInsert : List (String × JsVal) → String × JsVal → List (String × JsVal)
  | [], kv => [kv]
  | (k, v) :: rest, kv => if k = kv.1 then (k, kv.2) :: rest else (k, v) :: objInsert rest kv

/-- Collapse the raw member list of a parsed object to JS object semantics. -/
def collapseFields (ms : List (String × JsVal)) : List (String × JsVal) :=
  ms.foldl objInsert []

mutual

/-- One JSON value; the fuel bounds recursion depth and is spent on every
nested call, so any fuel at least the document's nesting budget suffices. -/
def parseValue : ℕ → List Char → Option (JsVal × List Char)
  | 0, _ => none
  | fuel + 1, cs =>
    match skipWs cs with
    | [] => none
    | c :: rest =>
      if c = obrace then
        match parseMembers fuel rest with
        | some (ms, r) => some (.obj (collapseFields ms), r)
        | none => none
      else if c = '[' then
        match parseItems fuel rest with
        | some (vs, r) => some (.arr vs, r)
        | none => none
      else if c = '\"' then
        match parseStringAux [] rest with
        | some (s, r) => some (.str s, r)
        | none => none
      else if c = 't' then (stripLit ['r', 'u', 'e'] rest).map (fun r => (.bool true, r))
      else if c = 'f' then (stripLit ['a', 'l', 's', 'e'] rest).map (fun r => (.bool false, r))
      else if c = 'n' then (stripLit ['u', 'l', 'l'] rest).map (fun r => (.null, r))
      else if c = '-' ∨ isDigitCh c then (parseNumber (c :: rest)).map (fun p => (.num p.1, p.2))
      else none

/-- Array items after the opening bracket: either an immediate `]` or a
non-empty comma-separated item sequence (no trailing comma, as in
`JSON.parse`). -/
def parseItems : ℕ → List Char → Option (List JsVal × List Char)
  | 0, _ => none
  | fuel + 1, cs =>
    match skipWs cs with
    | [] => none
    | c :: r =>
      if c = ']' then some ([], r)
      else parseItemsRest fuel (c :: r)

/-- One or more array items: a value, then `,` and more items or `]`. -/
def parseItemsRest : ℕ → List Char → Option (List JsVal × List Char)
  | 0, _ => none
  | fuel + 1, cs =>
    match parseValue fuel cs with
    | none => none
    | some (v, r1) =>
      match skipWs r1 with
      | [] => none
      | c2 :: r2 =>
        if c2 = ',' then
          match parseItemsRest fuel r2 with
          | some (vs, r3) => some (v :: vs, r3)
          | none => none
        else if c2 = ']' then some ([v], r2)
        else none

/-- Object members after the opening brace: either an immediate closing brace
or a non-empty member sequence (no trailing comma). -/
def parseMembers : ℕ → List Char → Option (List (String × JsVal) × List Char)
  | 0, _ => none
  | fuel + 1, cs =>
    match skipWs cs with
    | [] => none
    | c :: r =>
      if c = cbrace then some ([], r)
      else parseMembersRest fuel (c :: r)

/-- One or more members: `"key" : value`, then `,` and more members or a
closing brace. -/
def parseMembersRest : ℕ → List Char → Option (List (String × JsVal) × List Char)
  | 0, _ => none
  | fuel + 1, cs =>
    match skipWs cs with
    | [] => none
    | c :: r =>
      if c = '\"' then
        match parseStringAux [] r with
        | none => none
        | some (k, r1) =>
          match skipWs r1 with
          | [] => none
          | c1 :: r2 =>
            if c1 = ':' then
              match parseValue fuel r2 with
              | none => none
              | some (v, r3) =>
                match skipWs r3 with
                | [] => none
                | c2 :: r4 =>
                  if c2 = ',' then
                    match parseMembersRest fuel r4 with
                    | some (ms, r5) => some ((k, v) :: ms, r5)
                    | none => none
                  else if c2 = cbrace then some ([(k, v)], r4)
                  else none
            else none
      else none

end

/-- Model of the host `JSON.parse`: parse one value, allow surrounding
whitespace, reject trailing input. The fuel `2 * length + 2` dominates the
nesting budget of any document that fits in the input. -/
def jsonParse (s : String) : Option JsVal :=
  match parseValue (2 * s.length + 2) s.toList with
  | some (v, rest) => if skipWs rest = [] then some v else none
  | none => none

/-- Character of a decimal digit. -/
def digitChar (d : ℕ) : Char := Char.ofNat (48 + d)

/-- Big-endian decimal digits, fuel-driven so it reduces in the kernel. -/
def natDigitsAux : ℕ → ℕ → List ℕ
  | 0, n => [n % 10]
  | fuel + 1, n => if n < 10 then [n] else natDigitsAux fuel (n / 10) ++ [n % 10]

/-- Big-endian decimal digits of a natural number (`[0]` for zero). -/
def natDigits (n : ℕ) : List ℕ := natDigitsAux n n

/-- Decimal rendering of a natural number. -/
def renderNat (n : ℕ) : List Char := (natDigits n).map digitChar

/-- Exactly `k` digits, zero-padded at the front (requires `fr < 10 ^ k`). -/
def padDigits (k fr : ℕ) : List ℕ :=
  List.replicate (k - (natDigits fr).length) 0 ++ natDigits fr

/-- Least `k` with `den ∣ 10 ^ k`, when one exists: the number of decimal
fraction digits needed to write the rational exactly. -/
def decExp (d : ℕ) : Option ℕ :=
  (List.range (d + 1)).find? (fun k => 10 ^ k % d = 0)

/-- Decimal rendering of a rational, as `JSON.stringify` prints the numbers
of this embedding (plain positional notation, shortest form). Rationals with
no finite decimal expansion cannot arise from double values; they render as
`0` and are excluded by `jsonShaped`. -/
def numToChars (q : ℚ) : List Char :=
  match decExp q.den with
  | none => ['0']
  | some k =>
    let m := q.num.natAbs * (10 ^ k / q.den)
    (if q.num < 0 then ['-'] else []) ++ renderNat (m / 10 ^ k) ++
      (if k = 0 then [] else '.' :: (padDigits k (m % 10 ^ k)).map digitChar)

/-- Lowercase hexadecimal digit. -/
def hexDigitChar (d : ℕ) : Char := Char.ofNat (if d < 10 then 48 + d else 87 + d)

/-- Escaping of one character inside a JSON string literal, as
`JSON.stringify` emits it. -/
def escapeChar (c : Char) : List Char :=
  if c = '\"' then ['\\', '\"']
  else if c = '\\' then ['\\', '\\']
  else if c = '\x08' then ['\\', 'b']
  else if c = '\t' then ['\\', 't']
  else if c = '\n' then ['\\', 'n']
  else if c = '\x0c' then ['\\', 'f']
  else if c = '\r' then ['\\', 'r']
  else if c.toNat < 32 then ['\\', 'u', '0', '0', hexDigitChar (c.toNat / 16), hexDigitChar (c.toNat % 16)]
  else [c]

/-- Rendered JSON string literal with quotes. -/
def renderString (s : String) : List Char :=
  '\"' :: (s.toList.map escapeChar).flatten ++ ['\"']

/-- Is a member skipped by `JSON.stringify` (an `undefined` value)? -/
def keptMember (kv : String × JsVal) : Bool :=
  match kv.2 with
  | .undefined => false
  | _ => true

mutual

/-- Model of `JSON.stringify` (no indentation): `undefined` and `NaN` render
as `null` in value position, members with `undefined` values are dropped. -/
def renderVal : JsVal → List Char
  | .undefined => ['n', 'u', 'l', 'l']
  | .null => ['n', 'u', 'l', 'l']
  | .bool false => ['f', 'a', 'l', 's', 'e']
  | .bool true => ['t', 'r', 'u', 'e']
  | .nan => ['n', 'u', 'l', 'l']
  | .num q => numToChars q
  | .str s => renderString s
  | .arr xs => '[' :: renderItems xs ++ [']']
  | .obj ms => obrace :: renderMembers ms ++ [cbrace]

/-- Comma-separated array items. -/
def renderItems : List JsVal → List Char
  | [] => []
  | [x] => renderVal x
  | x :: xs => renderVal x ++ ',' :: renderItems xs

/-- Comma-separated object members; members with `undefined` values are
dropped, as `JSON.stringify` drops them. -/
def renderMembers : List (String × JsVal) → List Char
  | [] => []
  | (k, v) :: ms =>
    if keptMember (k, v) then
      renderString k ++ ':' :: renderVal v ++
        (if ms.any keptMember then ',' :: renderMembers ms else [])
    else renderMembers ms

end

/-- Model of `JSON.stringify` returning a string. -/
def jsonStringify (v : JsVal) : String := ⟨renderVal v⟩

/-- The error shape thrown and classified by the service: message plus the
optional `status`/`code` and the response-status fields probed by
`wrapGeminiError`. The original error is retained as `cause` in the source;
no classification decision reads it, so the embedding drops it. -/
structure JsError where
  message : String
  status : Option ℕ
  code : Option String
  responseStatus : Option ℕ
  responseStatusCode : Option ℕ
deriving DecidableEq

/-- The extractor's own error (line 96): thrown when the strict parse failed
and no brace-delimited substring exists. -/
def parseFailError : JsError :=
  ⟨"Failed to parse model response as JSON", none, none, none, none⟩

/-- The host `SyntaxError` escaping from `JSON.parse(match[0])` on line 97.
Its message is engine-dependent — modern Node embeds a snippet of the
unparsable input, which can itself contain classifier keywords — so the
message is a parameter of the model. A `SyntaxError` carries none of the
status/code/response fields the classifier probes. -/
def reparseFailError (msg : String) : JsError :=
  ⟨msg, none, none, none, none⟩

/-- The regex `/\x7b[\s\S]*\x7d/` of line 95: the substring from the first
opening brace to the last closing brace, when the latter comes after the
former. -/
def extractBraceSubstring (s : String) : Option String :=
  let cs := s.toList
  match cs.findIdx? (fun c => c = obrace), cs.reverse.findIdx? (fun c => c = cbrace) with
  | some i, some rj =>
    let j := cs.length - 1 - rj
    if i < j then some ⟨(cs.drop i).take (j - i + 1)⟩ else none
  | _, _ => none

/-- Source function `extractJsonObject`, lines 89-99: strict parse, then the
brace-substring fallback, then failure. `reparseMsg` is the message of the
host `SyntaxError` thrown by the failing re-parse, an input of the model
because it is engine-dependent. -/
def extractJsonObject (text : String) (reparseMsg : String) : Except JsError JsVal :=
  match jsonParse text with
  | some v => .ok v
  | none =>
    match extractBraceSubstring text with
    | none => .error parseFailError
    | some sub =>
      match jsonParse sub with
      | some v => .ok v
      | none => .error (reparseFailError reparseMsg)

/-- JavaScript `a || b` on optional numbers (`0` is falsy), as used for the
status probing chain of lines 183-187. -/
def orNum : Option ℕ → Option ℕ → Option ℕ
  | some n, b => if n = 0 then b else some n
  | none, b => b

/-- ASCII lowercasing over the character list (the classifier's keywords are
ASCII, so this matches `toLowerCase` on every message involved). -/
def jsToLower (s : String) : String := ⟨s.toList.map Char.toLower⟩

/-- Does the pattern occur at the head of the haystack? -/
def headMatch : List Char → List Char → Bool
  | [], _ => true
  | _ :: _, [] => false
  | p :: ps, c :: cs => p = c && headMatch ps cs

/-- Substring search over character lists. -/
def subSearch : List Char → List Char → Bool
  | [], pat => headMatch pat []
  | c :: t, pat => headMatch pat (c :: t) || subSearch t pat

/-- JavaScript `String.prototype.includes`. -/
def jsIncludes (s pat : String) : Bool :=
  subSearch s.toList pat.toList

/-- Source function `wrapGeminiError`, lines 177-201. -/
def wrapGeminiError (error : JsError) (preMessage : String) : JsError :=
  let status0 := orNum error.status (orNum error.responseStatus (orNum error.responseStatusCode none))
  let msg := jsToLower error.message
  let newMessage := preMessage ++ ": " ++ (if error.message.isEmpty then "Error" else error.message)
  if status0 == some 401 || status0 == some 403 || jsIncludes msg "api key" ||
      jsIncludes msg "permission" || jsIncludes msg "unauthorized" then
    { message := newMessage, status := some 401, code := some "invalid_api_key",
      responseStatus := none, responseStatusCode := none }
  else if status0 == some 429 || jsIncludes msg "quota" || jsIncludes msg "resource_exhausted" ||
      jsIncludes msg "rate limit" then
    { message := newMessage, status := some 429, code := some "insufficient_quota",
      responseStatus := none, responseStatusCode := none }
  else
    { message := newMessage, status := status0, code := error.code,
      responseStatus := none, responseStatusCode := none }

/-- No classifier keyword occurs in the lowercased message: for an error
carrying no status, exactly the condition under which `wrapGeminiError`
takes neither its 401 branch nor its 429 branch. -/
def keywordFree (m : String) : Bool :=
  !(jsIncludes (jsToLower m) "api key") && !(jsIncludes (jsToLower m) "permission") &&
  !(jsIncludes (jsToLower m) "unauthorized") && !(jsIncludes (jsToLower m) "quota") &&
  !(jsIncludes (jsToLower m) "resource_exhausted") && !(jsIncludes (jsToLower m) "rate limit")

/-- The error thrown by `getGeminiClient`, lines 27-31. -/
def missingKeyError : JsError :=
  ⟨"Gemini API key not configured: set GEMINI_API_KEY in your .env", some 401,
    some "missing_api_key", none, none⟩

/-- Source function `getGeminiClient`, lines 18-36: the environment variable
is a string or absent, so the `typeof` disjunct never fires; success is the
constructed client, which carries no data the pipeline reads. -/
def getGeminiClient (apiKey : Option String) : Except JsError Unit :=
  let falsyKey := match apiKey with | none => true | some s => s.isEmpty
  let blankKey := match apiKey with | none => true | some s => (jsTrim s).isEmpty
  if falsyKey || blankKey then .error missingKeyError else .ok ()

/-- The external `model.generateContent(...)` call followed by
`result?.response?.text?.() ?? ''`: either raw text or a thrown provider
error. The orchestrator is a function of this abstract outcome. -/
abbrev GenOutcome := Except JsError String

/-- Source function `analyzeMealText`, lines 207-245: credential check,
external call, extraction, normalization, with every raised error passed
through `wrapGeminiError`. -/
def analyzeMealText (apiKey : Option String) (gen : GenOutcome) (reparseMsg : String) :
    Except JsError AnalysisResult :=
  match (do
    let _ ← getGeminiClient apiKey
    let text ← gen
    let nutritionData ← extractJsonObject text reparseMsg
    pure (validateAndNormalizeNutritionData nutritionData) : Except JsError AnalysisResult) with
  | .ok r => .ok r
  | .error e => .error (wrapGeminiError e "Failed to analyze meal text")

/-- The `imageData` argument of `analyzeMealImage`: a byte buffer, a string,
or anything else. -/
inductive ImageInput where
  | buffer (bytes : List ℕ) : ImageInput
  | str (s : String) : ImageInput
  | other (v : JsVal) : ImageInput

/-- The error thrown on lines 276-279 for image data that is neither a
buffer nor a string. -/
def invalidImageError : JsError :=
  ⟨"Invalid image data format", some 400, some "invalid_image", none, none⟩

/-- The image-conversion branch of lines 267-280: buffers and strings are
converted to base64 (which only feeds the abstracted external call); any
other value throws the 400 `invalid_image` error. -/
def checkImage : ImageInput → Except JsError Unit
  | .buffer _ => .ok ()
  | .str _ => .ok ()
  | .other _ => .error invalidImageError

/-- Source function `analyzeMealImage`, lines 253-311. -/
def analyzeMealImage (apiKey : Option String) (imageData : ImageInput) (gen : GenOutcome)
    (reparseMsg : String) : Except JsError AnalysisResult :=
  match (do
    let _ ← getGeminiClient apiKey
    let _ ← checkImage imageData
    let text ← gen
    let nutritionData ← extractJsonObject text reparseMsg
    pure (validateAndNormalizeNutritionData nutritionData) : Except JsError AnalysisResult) with
  | .ok r => .ok r
  | .error e => .error (wrapGeminiError e "Failed to analyze meal image")

/-- Raw values that are either genuine numbers or falsy: exactly the inputs
the claim's "coerced to 0" story is true for. -/
def numOrFalsy (v : JsVal) : Prop := (∃ q : ℚ, v = .num q) ∨ truthy v = false

/-- The amended per-field guarantee: the output is a non-negative multiple of
`1 / scale` (so rounded to the field's precision), falsy raw values give 0,
and non-positive numeric raw values give 0. -/
def coercedField (raw : JsVal) (val : Option ℚ) (scale : ℕ) : Prop :=
  (∃ n : ℕ, val = some ((n : ℚ) / scale)) ∧
  (truthy raw = false → val = some 0) ∧
  (∀ q : ℚ, raw = .num q → q ≤ 0 → val = some 0)

/-! Predicates and measures for the JSON round-trip development. -/

/-- Pairwise-distinct member keys. -/
def keysNodup : List (String × JsVal) → Bool
  | [] => true
  | (k, _) :: rest => !(rest.any (fun kv => kv.1 = k)) && keysNodup rest

mutual

/-- A value is JSON-shaped when it is built only from `null`, booleans,
decimal-representable numbers (every number a double can hold is one),
strings, arrays and objects with pairwise-distinct keys — no `undefined`, no
`NaN`. These are exactly the values `JSON.stringify` serializes losslessly. -/
def shapedV : JsVal → Bool
  | .undefined => false
  | .null => true
  | .bool _ => true
  | .num q => (decExp q.den).isSome
  | .nan => false
  | .str _ => true
  | .arr xs => shapedL xs
  | .obj ms => keysNodup ms && shapedM ms

/-- All array elements JSON-shaped. -/
def shapedL : List JsVal → Bool
  | [] => true
  | x :: xs => shapedV x && shapedL xs

/-- All member values JSON-shaped. -/
def shapedM : List (String × JsVal) → Bool
  | [] => true
  | (_, v) :: ms => shapedV v && shapedM ms

end

/-- A JSON-object-shaped value: an object at the top, JSON-shaped throughout. -/
def jsonObjShaped (x : JsVal) : Bool :=
  match x with
  | .obj _ => shapedV x
  | _ => false

/-- Prose containing neither `\x7b` nor `\x7d`. -/
def braceFree (s : String) : Bool :=
  s.toList.all (fun c => ¬ (c = obrace ∨ c = cbrace))

mutual

/-- Fuel budget sufficient to parse the rendering of a value. -/
def pdV : JsVal → ℕ
  | .arr xs => 2 + pdL xs
  | .obj ms => 2 + pdM ms
  | _ => 1

/-- Fuel budget for an item list. -/
def pdL : List JsVal → ℕ
  | [] => 1
  | x :: xs => 1 + pdV x + pdL xs

/-- Fuel budget for a member list. -/
def pdM : List (String × JsVal) → ℕ
  | [] => 1
  | (_, v) :: ms => 1 + pdV v + pdM ms

end

/-- The characters that could extend a JSON number token: the rest after a
rendered number must not start with one. -/
def numBoundary : List Char → Prop
  | [] => True
  | c :: _ => isDigitCh c = false ∧ c ≠ '.' ∧ c ≠ 'e' ∧ c ≠ 'E'

theorem normalize_empty_obj_names :
    (validateAndNormalizeNutritionData (.obj [])).detected_food_items =
      ["Unidentified food items"] := by decide

theorem normalize_single_dish_total :
    (validateAndNormalizeNutritionData
      (.obj [("dishes",
        .arr [.obj [("name", .str "apple"),
                    ("nutrition", .obj [("calories", .num 95), ("protein_g", .num (1/2)),
                                        ("carbs_g", .num 25), ("fat_g", .num (3/10))])]])])).total =
      { calories := ⟨some 95, "kcal"⟩, protein := ⟨some (1/2), "g"⟩,
        carbs := ⟨some 25, "g"⟩, fat := ⟨some (3/10), "g"⟩ } := by decide

/-! Helper lemmas about the normalizer. -/

theorem normalize_dishes_eq (data : JsVal) :
    (validateAndNormalizeNutritionData data).dishes =
      if (extractDishes data).length = 0 then [fallbackDish data] else extractDishes data := rfl

theorem normalize_total_eq (data : JsVal) :
    (validateAndNormalizeNutritionData data).total =
      if hasObjectTotal data
      then formatNutritionWithUnits (getProp data "total")
      else
        formatNutritionWithUnits
          (calcTotalVal (calculatedTotal (validateAndNormalizeNutritionData data).dishes)) := by
  by_cases h : (extractDishes data).length = 0 <;>
    simp [validateAndNormalizeNutritionData, h]

theorem extracted_dish_name_pos {data : JsVal} {d : Dish}
    (hd : d ∈ extractDishes data) : 0 < d.name.length := by
  unfold extractDishes at hd
  rcases hgp : getProp data "dishes" with _ | _ | _ | _ | _ | _ | ds | _ <;> rw [hgp] at hd <;>
    simp at hd
  rcases hd with ⟨hlen, dish, ⟨hmem, hfil⟩, rfl⟩
  unfold validDishFilter at hfil
  unfold mkDish
  rcases hn : getProp dish "name" with _ | _ | _ | _ | _ | s | _ | _ <;> rw [hn] at hfil <;>
    simp at hfil ⊢
  · exact hfil.2

theorem extract_empty_of_length {data : JsVal} (h : (extractDishes data).length = 0) :
    extractDishes data = [] := List.length_eq_zero.mp h

/-- Claim C1: for every input value, however malformed (null, non-objects,
objects with no usable fields), `validateAndNormalizeNutritionData` is total
(never throws, being a Lean function into `AnalysisResult`), returns a
non-empty dish list whose names are non-empty, and whenever dish extraction
yields zero valid dishes the result has exactly the one fallback dish named
"Unidentified food items". -/
theorem normalize_never_fails (data : JsVal) :
    (validateAndNormalizeNutritionData data).dishes ≠ [] ∧
    (∀ d ∈ (validateAndNormalizeNutritionData data).dishes, 0 < d.name.length) ∧
    (extractDishes data = [] →
      (validateAndNormalizeNutritionData data).dishes.map Dish.name =
        ["Unidentified food items"]) := by
  by_cases h : (extractDishes data).length = 0
  · refine ⟨by simp [normalize_dishes_eq, h], ?_, ?_⟩
    · intro d hd
      rw [normalize_dishes_eq, if_pos h] at hd
      simp at hd
      subst hd
      show 0 < "Unidentified food items".length
      decide
    · intro _
      rw [normalize_dishes_eq, if_pos h]
      rfl
  · have hne : extractDishes data ≠ [] := fun hh => h (by simp [hh])
    refine ⟨by simp [normalize_dishes_eq, h, hne], ?_, ?_⟩
    · intro d hd
      rw [normalize_dishes_eq, if_neg h] at hd
      exact extracted_dish_name_pos hd
    · intro hnil
      exact absurd (by simp [hnil]) h

theorem normalize_never_fails_witness :
    (validateAndNormalizeNutritionData (.obj [])).dishes.map Dish.name =
      ["Unidentified food items"] :=
  (normalize_never_fails (.obj [])).2.2 (by rfl)

/-- Claim C7: the legacy view is exactly the projection of the canonical
result: `detected_food_items` is the ordered dish-name sequence, and the flat
`calories`/`protein_g`/`carbs_g`/`fat_g` fields are the resolved total's
numeric values with the units stripped. -/
theorem legacy_is_projection (data : JsVal) :
    (validateAndNormalizeNutritionData data).detected_food_items =
      (validateAndNormalizeNutritionData data).dishes.map Dish.name ∧
    (validateAndNormalizeNutritionData data).calories =
      (validateAndNormalizeNutritionData data).total.calories.value ∧
    (validateAndNormalizeNutritionData data).protein_g =
      (validateAndNormalizeNutritionData data).total.protein.value ∧
    (validateAndNormalizeNutritionData data).carbs_g =
      (validateAndNormalizeNutritionData data).total.carbs.value ∧
    (validateAndNormalizeNutritionData data).fat_g =
      (validateAndNormalizeNutritionData data).total.fat.value :=
  ⟨rfl, rfl, rfl, rfl, rfl⟩

/-- Claim C9: in the fallback-dish path each nutrient field is resolved
independently by truthiness. With top-level `calories = c > 0`, top-level
`protein_g = 0`, no top-level `carbs_g`/`fat_g`, and a `total` carrying other
values, the single fallback dish takes calories from the top level (the
total's `tc` is ignored for any `tc`), protein and carbs from `parsed.total`
(the top-level 0 is skipped), and fat defaults to 0. -/
theorem fallback_mixes_sources (c p cb tc : ℚ) (hc : 0 < c) (hp : 0 < p) (hcb : 0 < cb) :
    (validateAndNormalizeNutritionData
      (.obj [("calories", .num c), ("protein_g", .num 0),
             ("total", .obj [("calories", .num tc), ("protein_g", .num p),
                             ("carbs_g", .num cb)])])).dishes =
      [⟨"Unidentified food items",
        { calories := ⟨some (max 0 ((round c : ℤ) : ℚ)), "kcal"⟩
          protein := ⟨some (max 0 (((round (p * 100) : ℤ) : ℚ) / 100)), "g"⟩
          carbs := ⟨some (max 0 (((round (cb * 100) : ℤ) : ℚ) / 100)), "g"⟩
          fat := ⟨some 0, "g"⟩ }⟩] := by
  have hc' : c ≠ 0 := ne_of_gt hc
  have hp' : p ≠ 0 := ne_of_gt hp
  have hcb' : cb ≠ 0 := ne_of_gt hcb
  simp [normalize_dishes_eq, extractDishes, getProp, lookupField, fallbackDish,
    fallbackNutrition, jsOr, truthy, formatNutritionWithUnits, calorieFormat, gramFormat,
    roundToTwo, toNumber, jsMax0, hc', hp', hcb']

theorem fallback_mixes_sources_witness :
    (validateAndNormalizeNutritionData
      (.obj [("calories", .num 500), ("protein_g", .num 0),
             ("total", .obj [("calories", .num 123), ("protein_g", .num 20),
                             ("carbs_g", .num 3)])])).dishes =
      [⟨"Unidentified food items",
        { calories := ⟨some 500, "kcal"⟩, protein := ⟨some 20, "g"⟩,
          carbs := ⟨some 3, "g"⟩, fat := ⟨some 0, "g"⟩ }⟩] := by
  have h := fallback_mixes_sources 500 20 3 123 (by norm_num) (by norm_num) (by norm_num)
  rw [h]
  decide

/-! Helper lemmas for the coercion/rounding analysis. -/

theorem toNumber_jsOr_num_zero (q : ℚ) : toNumber (jsOr (.num q) (.num 0)) = some q := by
  by_cases hq : q = 0 <;> simp [jsOr, truthy, toNumber, hq]

theorem jsOr_zero_of_falsy {v : JsVal} (h : truthy v = false) : jsOr v (.num 0) = .num 0 := by
  simp [jsOr, h]

theorem jsOr_zero_idem (v : JsVal) : jsOr (jsOr v (.num 0)) (.num 0) = jsOr v (.num 0) := by
  by_cases hv : truthy v = true
  · simp [jsOr, hv]
  · have hv' : truthy v = false := by simpa using hv
    rw [jsOr_zero_of_falsy hv', jsOr_zero_of_falsy (by decide)]

theorem round_nonpos_of_nonpos {q : ℚ} (h : q ≤ 0) : round q ≤ 0 := by
  rw [round_eq]
  have h1 : ⌊q + 1 / 2⌋ ≤ ⌊(1 : ℚ) / 2⌋ := Int.floor_mono (by linarith)
  have h2 : ⌊(1 : ℚ) / 2⌋ = 0 := by decide
  omega

theorem max0_intCast (z : ℤ) : max 0 ((z : ℚ)) = ((z.toNat : ℕ) : ℚ) := by
  rcases le_or_lt 0 z with h | h
  · rw [max_eq_right (by exact_mod_cast h)]
    exact_mod_cast (Int.toNat_of_nonneg h).symm
  · rw [max_eq_left (by exact_mod_cast h.le), Int.toNat_of_nonpos h.le]
    simp

theorem max0_intCast_div100 (z : ℤ) :
    max 0 ((z : ℚ) / 100) = ((z.toNat : ℕ) : ℚ) / 100 := by
  rcases le_or_lt 0 z with h | h
  · rw [max_eq_right (by positivity)]
    congr 1
    exact_mod_cast (Int.toNat_of_nonneg h).symm
  · have hz : ((z : ℚ)) / 100 ≤ 0 := by
      apply div_nonpos_of_nonpos_of_nonneg _ (by norm_num)
      exact_mod_cast h.le
    rw [max_eq_left hz, Int.toNat_of_nonpos h.le]
    simp

theorem calorieFormat_num (q : ℚ) :
    calorieFormat (.num q) = some (max 0 ((round q : ℤ) : ℚ)) := by
  simp [calorieFormat, toNumber_jsOr_num_zero, jsMax0]

theorem calorieFormat_falsy {v : JsVal} (h : truthy v = false) :
    calorieFormat v = some 0 := by
  simp [calorieFormat, jsOr_zero_of_falsy h, toNumber, jsMax0]

theorem gramFormat_num (q : ℚ) :
    gramFormat (.num q) = some (max 0 (((round (q * 100) : ℤ) : ℚ) / 100)) := by
  by_cases hq : q = 0
  · subst hq
    simp [gramFormat, roundToTwo, jsOr, truthy, toNumber, jsMax0]
  · simp [gramFormat, roundToTwo, jsOr, truthy, toNumber, jsMax0, hq]

theorem gramFormat_falsy {v : JsVal} (h : truthy v = false) :
    gramFormat v = some 0 := by
  unfold gramFormat
  rw [jsOr_zero_of_falsy h]
  decide

theorem calorieFormat_spec (v : JsVal) (h : numOrFalsy v) :
    coercedField v (calorieFormat v) 1 := by
  rcases h with ⟨q, rfl⟩ | hf
  · refine ⟨⟨(round q).toNat, ?_⟩, ?_, ?_⟩
    · rw [calorieFormat_num, max0_intCast]
      norm_num
    · intro hfal
      have hq : q = 0 := by simpa [truthy] using hfal
      subst hq
      rw [calorieFormat_num]
      norm_num
    · intro q' hq' hneg
      cases hq'
      rw [calorieFormat_num]
      have := round_nonpos_of_nonpos hneg
      rw [max_eq_left (by exact_mod_cast this)]
  · refine ⟨⟨0, ?_⟩, fun _ => calorieFormat_falsy hf, ?_⟩
    · rw [calorieFormat_falsy hf]
      norm_num
    · intro q hq _
      exact calorieFormat_falsy hf

theorem gramFormat_spec (v : JsVal) (h : numOrFalsy v) :
    coercedField v (gramFormat v) 100 := by
  rcases h with ⟨q, rfl⟩ | hf
  · refine ⟨⟨(round (q * 100)).toNat, ?_⟩, ?_, ?_⟩
    · rw [gramFormat_num, max0_intCast_div100]
      norm_num
    · intro hfal
      have hq : q = 0 := by simpa [truthy] using hfal
      subst hq
      rw [gramFormat_num]
      norm_num
    · intro q' hq' hneg
      cases hq'
      rw [gramFormat_num]
      have h100 : q * 100 ≤ 0 := by nlinarith
      have := round_nonpos_of_nonpos h100
      have hle : ((round (q * 100) : ℤ) : ℚ) / 100 ≤ 0 := by
        apply div_nonpos_of_nonpos_of_nonneg _ (by norm_num)
        exact_mod_cast this
      rw [max_eq_left hle]
  · refine ⟨⟨0, ?_⟩, fun _ => gramFormat_falsy hf, ?_⟩
    · rw [gramFormat_falsy hf]
      norm_num
    · intro q hq _
      exact gramFormat_falsy hf

/-- Counterexample to claim C6 as stated: a truthy non-numeric raw nutrition
value is not coerced to 0 — JS numeric coercion applies instead, so a raw
`calories: true` yields 1, where the claim demands 0. -/
theorem format_nonnumeric_not_zero_cex :
    (formatNutritionWithUnits (.obj [("calories", .bool true)])).calories.value = some 1 ∧
    ¬ (formatNutritionWithUnits (.obj [("calories", .bool true)])).calories.value = some 0 := by
  constructor <;> decide

/-- Claim C6 (amended): for every raw nutrition value that is numeric or
falsy (missing, `null`, `false`, `0`, `NaN`, empty string), the normalized
output value is a non-negative multiple of the field's precision (integer
kcal, hundredths of a gram), falsy raw values are coerced to 0, and negative
numeric raw values are clamped to 0. Truthy non-numeric raw values instead
undergo JS numeric coercion (see the counterexample) and are excluded here. -/
theorem format_values_nonneg_rounded (nutrition : JsVal)
    (hcal : numOrFalsy (getProp nutrition "calories"))
    (hpro : numOrFalsy (getProp nutrition "protein_g"))
    (hcarb : numOrFalsy (getProp nutrition "carbs_g"))
    (hfat : numOrFalsy (getProp nutrition "fat_g")) :
    coercedField (getProp nutrition "calories")
      ((formatNutritionWithUnits nutrition).calories.value) 1 ∧
    coercedField (getProp nutrition "protein_g")
      ((formatNutritionWithUnits nutrition).protein.value) 100 ∧
    coercedField (getProp nutrition "carbs_g")
      ((formatNutritionWithUnits nutrition).carbs.value) 100 ∧
    coercedField (getProp nutrition "fat_g")
      ((formatNutritionWithUnits nutrition).fat.value) 100 :=
  ⟨calorieFormat_spec _ hcal, gramFormat_spec _ hpro,
   gramFormat_spec _ hcarb, gramFormat_spec _ hfat⟩

theorem format_values_nonneg_rounded_witness :
    coercedField (getProp (.obj [("calories", .num (-3)), ("protein_g", .num (1 / 2))]) "calories")
      ((formatNutritionWithUnits
        (.obj [("calories", .num (-3)), ("protein_g", .num (1 / 2))])).calories.value) 1 ∧
    coercedField (getProp (.obj [("calories", .num (-3)), ("protein_g", .num (1 / 2))]) "protein_g")
      ((formatNutritionWithUnits
        (.obj [("calories", .num (-3)), ("protein_g", .num (1 / 2))])).protein.value) 100 ∧
    coercedField (getProp (.obj [("calories", .num (-3)), ("protein_g", .num (1 / 2))]) "carbs_g")
      ((formatNutritionWithUnits
        (.obj [("calories", .num (-3)), ("protein_g", .num (1 / 2))])).carbs.value) 100 ∧
    coercedField (getProp (.obj [("calories", .num (-3)), ("protein_g", .num (1 / 2))]) "fat_g")
      ((formatNutritionWithUnits
        (.obj [("calories", .num (-3)), ("protein_g", .num (1 / 2))])).fat.value) 100 :=
  format_values_nonneg_rounded _ (Or.inl ⟨-3, rfl⟩) (Or.inl ⟨1 / 2, rfl⟩)
    (Or.inr rfl) (Or.inr rfl)

/-- Claim C5: a present, object-shaped `parsed.total` is formatted through the
same coercion/rounding and used as-is; the dish-summing path runs only when
that guard fails; and a model-supplied total is not constrained to equal the
dish sum (witnessed by a response whose total is 50 against a dish sum of
100). -/
theorem provided_total_precedence (data : JsVal) :
    (hasObjectTotal data = true →
      (validateAndNormalizeNutritionData data).total =
        formatNutritionWithUnits (getProp data "total")) ∧
    (hasObjectTotal data = false →
      (validateAndNormalizeNutritionData data).total =
        formatNutritionWithUnits
          (calcTotalVal (calculatedTotal (validateAndNormalizeNutritionData data).dishes))) ∧
    (∃ d : JsVal, hasObjectTotal d = true ∧
      (validateAndNormalizeNutritionData d).total.calories.value ≠
        sumValues (fun dish => dish.nutrition.calories.value)
          (validateAndNormalizeNutritionData d).dishes) := by
  refine ⟨?_, ?_, ?_⟩
  · intro h
    rw [normalize_total_eq, if_pos h]
  · intro h
    rw [normalize_total_eq, if_neg (by simp [h])]
  · refine ⟨.obj [("dishes", .arr [.obj [("name", .str "a"),
        ("nutrition", .obj [("calories", .num 100)])]]),
        ("total", .obj [("calories", .num 50)])], by decide, by decide⟩

theorem provided_total_precedence_witness :
    (validateAndNormalizeNutritionData
      (.obj [("dishes", .arr [.obj [("name", .str "a"),
        ("nutrition", .obj [("calories", .num 100)])]]),
        ("total", .obj [("calories", .num 50)])])).total =
      formatNutritionWithUnits
        (getProp (.obj [("dishes", .arr [.obj [("name", .str "a"),
          ("nutrition", .obj [("calories", .num 100)])]]),
          ("total", .obj [("calories", .num 50)])]) "total") :=
  (provided_total_precedence _).1 (by decide)

/-! Shape lemmas feeding the dish-sum reconciliation. -/

theorem calorieFormat_shape (v : JsVal) :
    calorieFormat v = none ∨ ∃ n : ℕ, calorieFormat v = some ((n : ℚ)) := by
  unfold calorieFormat
  cases h : toNumber (jsOr v (.num 0)) with
  | none => left; simp [h, jsMax0]
  | some q =>
    right
    exact ⟨(round q).toNat, by simp [h, jsMax0, max0_intCast]⟩

theorem gramFormat_shape (v : JsVal) :
    gramFormat v = none ∨ ∃ n : ℕ, gramFormat v = some ((n : ℚ) / 100) := by
  unfold gramFormat roundToTwo
  rw [jsOr_zero_idem]
  cases h : toNumber (jsOr v (.num 0)) with
  | none => left; simp [h, jsMax0]
  | some q =>
    right
    exact ⟨(round (q * 100)).toNat, by simp [h, jsMax0, max0_intCast_div100]⟩

theorem calorieFormat_natCast (n : ℕ) : calorieFormat (.num (n : ℚ)) = some ((n : ℚ)) := by
  rw [calorieFormat_num]
  rw [round_natCast, max_eq_right (by positivity)]
  norm_cast

theorem gramFormat_nat_div100 (n : ℕ) :
    gramFormat (.num ((n : ℚ) / 100)) = some ((n : ℚ) / 100) := by
  rw [gramFormat_num, div_mul_cancel₀ _ (by norm_num : (100 : ℚ) ≠ 0), round_natCast,
    max_eq_right (by positivity)]
  push_cast
  ring_nf

theorem sumValues_aux (f : Dish → Option ℚ) (k : ℕ) (dishes : List Dish)
    (h : ∀ d ∈ dishes, ∃ n : ℕ, f d = some ((n : ℚ) / k)) :
    ∀ a : ℕ, ∃ N : ℕ,
      dishes.foldl (fun acc d => jsAdd acc (f d)) (some ((a : ℚ) / k)) = some ((N : ℚ) / k) := by
  induction dishes with
  | nil => exact fun a => ⟨a, rfl⟩
  | cons d ds ih =>
    intro a
    obtain ⟨n, hn⟩ := h d (by simp)
    obtain ⟨N, hN⟩ := ih (fun d' hd' => h d' (by simp [hd'])) (a + n)
    refine ⟨N, ?_⟩
    rw [List.foldl_cons, hn]
    show ds.foldl (fun acc d => jsAdd acc (f d)) (some ((a : ℚ) / k + (n : ℚ) / k)) = _
    rw [div_add_div_same, ← Nat.cast_add]
    exact hN

theorem sumValues_shape (f : Dish → Option ℚ) (k : ℕ) (dishes : List Dish)
    (h : ∀ d ∈ dishes, ∃ n : ℕ, f d = some ((n : ℚ) / k)) :
    ∃ N : ℕ, sumValues f dishes = some ((N : ℚ) / k) := by
  have := sumValues_aux f k dishes h 0
  simpa [sumValues] using this

theorem calcTotal_proj_calories (dishes : List Dish) (acc : CalcTotal) :
    (dishes.foldl calcStep acc).calories =
      dishes.foldl (fun a d => jsAdd a d.nutrition.calories.value) acc.calories := by
  induction dishes generalizing acc with
  | nil => rfl
  | cons d ds ih => rw [List.foldl_cons, List.foldl_cons, ih]; rfl

theorem calcTotal_proj_protein (dishes : List Dish) (acc : CalcTotal) :
    (dishes.foldl calcStep acc).protein_g =
      dishes.foldl (fun a d => jsAdd a d.nutrition.protein.value) acc.protein_g := by
  induction dishes generalizing acc with
  | nil => rfl
  | cons d ds ih => rw [List.foldl_cons, List.foldl_cons, ih]; rfl

theorem calcTotal_proj_carbs (dishes : List Dish) (acc : CalcTotal) :
    (dishes.foldl calcStep acc).carbs_g =
      dishes.foldl (fun a d => jsAdd a d.nutrition.carbs.value) acc.carbs_g := by
  induction dishes generalizing acc with
  | nil => rfl
  | cons d ds ih => rw [List.foldl_cons, List.foldl_cons, ih]; rfl

theorem calcTotal_proj_fat (dishes : List Dish) (acc : CalcTotal) :
    (dishes.foldl calcStep acc).fat_g =
      dishes.foldl (fun a d => jsAdd a d.nutrition.fat.value) acc.fat_g := by
  induction dishes generalizing acc with
  | nil => rfl
  | cons d ds ih => rw [List.foldl_cons, List.foldl_cons, ih]; rfl

theorem calculatedTotal_calories (dishes : List Dish) :
    (calculatedTotal dishes).calories =
      sumValues (fun d => d.nutrition.calories.value) dishes :=
  calcTotal_proj_calories dishes _

theorem calculatedTotal_protein (dishes : List Dish) :
    (calculatedTotal dishes).protein_g =
      sumValues (fun d => d.nutrition.protein.value) dishes :=
  calcTotal_proj_protein dishes _

theorem calculatedTotal_carbs (dishes : List Dish) :
    (calculatedTotal dishes).carbs_g =
      sumValues (fun d => d.nutrition.carbs.value) dishes :=
  calcTotal_proj_carbs dishes _

theorem calculatedTotal_fat (dishes : List Dish) :
    (calculatedTotal dishes).fat_g =
      sumValues (fun d => d.nutrition.fat.value) dishes :=
  calcTotal_proj_fat dishes _

theorem extracted_dish_nutrition {data : JsVal} {d : Dish} (hd : d ∈ extractDishes data) :
    ∃ w : JsVal, d.nutrition = formatNutritionWithUnits w := by
  unfold extractDishes at hd
  rcases hgp : getProp data "dishes" with _ | _ | _ | _ | _ | _ | ds | _ <;> rw [hgp] at hd <;>
    simp at hd
  rcases hd with ⟨-, dish, -, rfl⟩
  exact ⟨jsOr (getProp dish "nutrition") (.obj []), rfl⟩

theorem sumValues_shape_nat (f : Dish → Option ℚ) (dishes : List Dish)
    (h : ∀ d ∈ dishes, ∃ n : ℕ, f d = some ((n : ℚ))) :
    ∃ N : ℕ, sumValues f dishes = some ((N : ℚ)) := by
  obtain ⟨N, hN⟩ := sumValues_shape f 1 dishes
    (fun d hd => by obtain ⟨n, hn⟩ := h d hd; exact ⟨n, by rw [hn]; norm_num⟩)
  exact ⟨N, by simpa using hN⟩

theorem getProp_calcTotalVal_calories (t : CalcTotal) :
    getProp (calcTotalVal t) "calories" = numToVal t.calories := by
  simp [calcTotalVal, getProp, lookupField]

theorem getProp_calcTotalVal_protein (t : CalcTotal) :
    getProp (calcTotalVal t) "protein_g" = numToVal t.protein_g := by
  simp [calcTotalVal, getProp, lookupField]

theorem getProp_calcTotalVal_carbs (t : CalcTotal) :
    getProp (calcTotalVal t) "carbs_g" = numToVal t.carbs_g := by
  simp [calcTotalVal, getProp, lookupField]

theorem getProp_calcTotalVal_fat (t : CalcTotal) :
    getProp (calcTotalVal t) "fat_g" = numToVal t.fat_g := by
  simp [calcTotalVal, getProp, lookupField]

/-- Claim C4: when the parsed object has no `total` field and at least one
well-formed dish (name kept by the filter and finite, numeric nutrition, as
the prompt contract requires of valid responses), the normalized result's
total equals, field by field, the exact sum of the normalized dish values —
the total's own rounding pass does not disturb the sum. -/
theorem total_is_exact_dish_sum (data : JsVal)
    (hno : getProp data "total" = .undefined)
    (hne : extractDishes data ≠ [])
    (hfin : ∀ d ∈ extractDishes data,
      d.nutrition.calories.value ≠ none ∧ d.nutrition.protein.value ≠ none ∧
      d.nutrition.carbs.value ≠ none ∧ d.nutrition.fat.value ≠ none) :
    (validateAndNormalizeNutritionData data).total.calories.value =
      sumValues (fun d => d.nutrition.calories.value)
        (validateAndNormalizeNutritionData data).dishes ∧
    (validateAndNormalizeNutritionData data).total.protein.value =
      sumValues (fun d => d.nutrition.protein.value)
        (validateAndNormalizeNutritionData data).dishes ∧
    (validateAndNormalizeNutritionData data).total.carbs.value =
      sumValues (fun d => d.nutrition.carbs.value)
        (validateAndNormalizeNutritionData data).dishes ∧
    (validateAndNormalizeNutritionData data).total.fat.value =
      sumValues (fun d => d.nutrition.fat.value)
        (validateAndNormalizeNutritionData data).dishes := by
  have hdishes : (validateAndNormalizeNutritionData data).dishes = extractDishes data := by
    rw [normalize_dishes_eq, if_neg (by simpa using hne)]
  have hobj : hasObjectTotal data = false := by simp [hasObjectTotal, hno, truthy]
  have htot : (validateAndNormalizeNutritionData data).total =
      formatNutritionWithUnits (calcTotalVal (calculatedTotal (extractDishes data))) := by
    rw [normalize_total_eq, if_neg (by simp [hobj]), hdishes]
  have hshape : ∀ d ∈ extractDishes data,
      (∃ n : ℕ, d.nutrition.calories.value = some ((n : ℚ))) ∧
      (∃ n : ℕ, d.nutrition.protein.value = some ((n : ℚ) / 100)) ∧
      (∃ n : ℕ, d.nutrition.carbs.value = some ((n : ℚ) / 100)) ∧
      (∃ n : ℕ, d.nutrition.fat.value = some ((n : ℚ) / 100)) := by
    intro d hd
    obtain ⟨w, hw⟩ := extracted_dish_nutrition hd
    obtain ⟨hc, hp, hcb, hf⟩ := hfin d hd
    rw [hw] at hc hp hcb hf ⊢
    refine ⟨?_, ?_, ?_, ?_⟩
    · rcases calorieFormat_shape (getProp w "calories") with h | h
      · exact absurd h hc
      · exact h
    · rcases gramFormat_shape (getProp w "protein_g") with h | h
      · exact absurd h hp
      · exact h
    · rcases gramFormat_shape (getProp w "carbs_g") with h | h
      · exact absurd h hcb
      · exact h
    · rcases gramFormat_shape (getProp w "fat_g") with h | h
      · exact absurd h hf
      · exact h
  obtain ⟨Nc, hNc⟩ := sumValues_shape_nat _ _ (fun d hd => (hshape d hd).1)
  obtain ⟨Np, hNp⟩ := sumValues_shape _ 100 _ (fun d hd => (hshape d hd).2.1)
  obtain ⟨Nb, hNb⟩ := sumValues_shape _ 100 _ (fun d hd => (hshape d hd).2.2.1)
  obtain ⟨Nf, hNf⟩ := sumValues_shape _ 100 _ (fun d hd => (hshape d hd).2.2.2)
  rw [hdishes, htot]
  refine ⟨?_, ?_, ?_, ?_⟩
  · show calorieFormat (getProp (calcTotalVal (calculatedTotal (extractDishes data))) "calories") = _
    rw [getProp_calcTotalVal_calories, calculatedTotal_calories, hNc]
    show calorieFormat (.num ((Nc : ℚ))) = _
    rw [calorieFormat_natCast]
  · show gramFormat (getProp (calcTotalVal (calculatedTotal (extractDishes data))) "protein_g") = _
    rw [getProp_calcTotalVal_protein, calculatedTotal_protein, hNp]
    show gramFormat (.num ((Np : ℚ) / 100)) = _
    rw [gramFormat_nat_div100]
    norm_num
  · show gramFormat (getProp (calcTotalVal (calculatedTotal (extractDishes data))) "carbs_g") = _
    rw [getProp_calcTotalVal_carbs, calculatedTotal_carbs, hNb]
    show gramFormat (.num ((Nb : ℚ) / 100)) = _
    rw [gramFormat_nat_div100]
    norm_num
  · show gramFormat (getProp (calcTotalVal (calculatedTotal (extractDishes data))) "fat_g") = _
    rw [getProp_calcTotalVal_fat, calculatedTotal_fat, hNf]
    show gramFormat (.num ((Nf : ℚ) / 100)) = _
    rw [gramFormat_nat_div100]
    norm_num

theorem total_is_exact_dish_sum_witness :
    (validateAndNormalizeNutritionData
      (.obj [("dishes", .arr [.obj [("name", .str "apple"),
        ("nutrition", .obj [("calories", .num 95), ("protein_g", .num (1 / 2)),
                            ("carbs_g", .num 25), ("fat_g", .num (3 / 10))])]])])).total.calories.value =
      sumValues (fun d => d.nutrition.calories.value)
        (validateAndNormalizeNutritionData
          (.obj [("dishes", .arr [.obj [("name", .str "apple"),
            ("nutrition", .obj [("calories", .num 95), ("protein_g", .num (1 / 2)),
                                ("carbs_g", .num 25), ("fat_g", .num (3 / 10))])]])])).dishes ∧
    (validateAndNormalizeNutritionData
      (.obj [("dishes", .arr [.obj [("name", .str "apple"),
        ("nutrition", .obj [("calories", .num 95), ("protein_g", .num (1 / 2)),
                            ("carbs_g", .num 25), ("fat_g", .num (3 / 10))])]])])).total.protein.value =
      sumValues (fun d => d.nutrition.protein.value)
        (validateAndNormalizeNutritionData
          (.obj [("dishes", .arr [.obj [("name", .str "apple"),
            ("nutrition", .obj [("calories", .num 95), ("protein_g", .num (1 / 2)),
                                ("carbs_g", .num 25), ("fat_g", .num (3 / 10))])]])])).dishes ∧
    (validateAndNormalizeNutritionData
      (.obj [("dishes", .arr [.obj [("name", .str "apple"),
        ("nutrition", .obj [("calories", .num 95), ("protein_g", .num (1 / 2)),
                            ("carbs_g", .num 25), ("fat_g", .num (3 / 10))])]])])).total.carbs.value =
      sumValues (fun d => d.nutrition.carbs.value)
        (validateAndNormalizeNutritionData
          (.obj [("dishes", .arr [.obj [("name", .str "apple"),
            ("nutrition", .obj [("calories", .num 95), ("protein_g", .num (1 / 2)),
                                ("carbs_g", .num 25), ("fat_g", .num (3 / 10))])]])])).dishes ∧
    (validateAndNormalizeNutritionData
      (.obj [("dishes", .arr [.obj [("name", .str "apple"),
        ("nutrition", .obj [("calories", .num 95), ("protein_g", .num (1 / 2)),
                            ("carbs_g", .num 25), ("fat_g", .num (3 / 10))])]])])).total.fat.value =
      sumValues (fun d => d.nutrition.fat.value)
        (validateAndNormalizeNutritionData
          (.obj [("dishes", .arr [.obj [("name", .str "apple"),
            ("nutrition", .obj [("calories", .num 95), ("protein_g", .num (1 / 2)),
                                ("carbs_g", .num 25), ("fat_g", .num (3 / 10))])]])])).dishes :=
  total_is_exact_dish_sum _ (by rfl) (by decide) (by decide)

/-! Classifier and orchestrator claims. -/

/-- Counterexample to claim C3 as stated: with the credential absent, the
error surfaced by `analyzeMealText` carries code `invalid_api_key`, not
`missing_api_key` — `wrapGeminiError` re-codes the inner error because its
message contains "api key". -/
theorem analyzeText_missing_key_code_cex :
    analyzeMealText none (.ok "") "Unexpected token" =
      .error (wrapGeminiError missingKeyError "Failed to analyze meal text") ∧
    (wrapGeminiError missingKeyError "Failed to analyze meal text").code =
      some "invalid_api_key" ∧
    ¬ (wrapGeminiError missingKeyError "Failed to analyze meal text").code =
      some "missing_api_key" :=
  ⟨rfl, by decide, by decide⟩

/-- Claim C3 (amended): a call to `analyzeMealText` made while the credential
is absent or blank fails immediately with a classified error of status 401
and code `invalid_api_key` (the inner `missing_api_key` code is overwritten
by the wrapper's "api key" keyword match), and the external generation
outcome is never consulted: the result is identical for every `gen`. -/
theorem analyzeText_missing_key (apiKey : Option String) (gen : GenOutcome)
    (reparseMsg : String)
    (h : apiKey = none ∨ ∃ s, apiKey = some s ∧ jsTrim s = "") :
    analyzeMealText apiKey gen reparseMsg =
      .error (wrapGeminiError missingKeyError "Failed to analyze meal text") ∧
    (wrapGeminiError missingKeyError "Failed to analyze meal text").status = some 401 ∧
    (wrapGeminiError missingKeyError "Failed to analyze meal text").code =
      some "invalid_api_key" ∧
    ∀ gen' : GenOutcome,
      analyzeMealText apiKey gen' reparseMsg = analyzeMealText apiKey gen reparseMsg := by
  have hclient : getGeminiClient apiKey = .error missingKeyError := by
    rcases h with rfl | ⟨s, rfl, hs⟩
    · rfl
    · have hb : (jsTrim s).isEmpty = true := by rw [hs]; rfl
      simp [getGeminiClient, hb]
  have hrun : ∀ g : GenOutcome,
      analyzeMealText apiKey g reparseMsg =
        .error (wrapGeminiError missingKeyError "Failed to analyze meal text") := by
    intro g
    unfold analyzeMealText
    rw [hclient]
    rfl
  exact ⟨hrun gen, by decide, by decide, fun gen' => by rw [hrun gen', hrun gen]⟩

theorem analyzeText_missing_key_witness :
    analyzeMealText none (.ok "") "Unexpected token" =
      .error (wrapGeminiError missingKeyError "Failed to analyze meal text") :=
  (analyzeText_missing_key none (.ok "") "Unexpected token" (Or.inl rfl)).1

/-- Counterexample to claim C10 as stated: a call with an invalid image
argument but an absent credential fails with the 401 `invalid_api_key`
classification, not 400/`invalid_image` — the credential check precedes the
image check, so the claim does not hold of every call with a bad image. -/
theorem analyzeImage_needs_key_cex :
    analyzeMealImage none (.other .null) (.ok "") "Unexpected token" =
      .error (wrapGeminiError missingKeyError "Failed to analyze meal image") ∧
    (wrapGeminiError missingKeyError "Failed to analyze meal image").code =
      some "invalid_api_key" ∧
    ¬ (wrapGeminiError missingKeyError "Failed to analyze meal image").status = some 400 :=
  ⟨rfl, by decide, by decide⟩

/-- Claim C10 (amended): for every call to `analyzeMealImage` made with a
present, non-blank credential and an image argument that is neither a buffer
nor a string, the call fails before the model call with status 400 and code
`invalid_image`; the wrapper preserves the pair (the message matches no
unauthorized/quota keyword), and the generation outcome is never consulted. -/
theorem analyzeImage_invalid_image (s : String) (v : JsVal) (gen : GenOutcome)
    (reparseMsg : String) (h : jsTrim s ≠ "") :
    analyzeMealImage (some s) (.other v) gen reparseMsg =
      .error (wrapGeminiError invalidImageError "Failed to analyze meal image") ∧
    (wrapGeminiError invalidImageError "Failed to analyze meal image").status = some 400 ∧
    (wrapGeminiError invalidImageError "Failed to analyze meal image").code =
      some "invalid_image" ∧
    ∀ gen' : GenOutcome,
      analyzeMealImage (some s) (.other v) gen' reparseMsg =
        analyzeMealImage (some s) (.other v) gen reparseMsg := by
  have h2 : (jsTrim s).isEmpty = false := by
    cases hc : (jsTrim s).isEmpty
    · rfl
    · exact absurd ((String.isEmpty_iff _).mp (by rw [hc])) h
  have h1 : s.isEmpty = false := by
    cases hc : s.isEmpty
    · rfl
    · exfalso
      apply h
      have hs : s = "" := (String.isEmpty_iff _).mp (by rw [hc])
      rw [hs]
      rfl
  have hclient : getGeminiClient (some s) = .ok () := by
    simp [getGeminiClient, h1, h2]
  have hrun : ∀ g : GenOutcome,
      analyzeMealImage (some s) (.other v) g reparseMsg =
        .error (wrapGeminiError invalidImageError "Failed to analyze meal image") := by
    intro g
    unfold analyzeMealImage
    rw [hclient]
    rfl
  exact ⟨hrun gen, by decide, by decide, fun gen' => by rw [hrun gen', hrun gen]⟩

theorem analyzeImage_invalid_image_witness :
    analyzeMealImage (some "k") (.other .null) (.ok "") "Unexpected token" =
      .error (wrapGeminiError invalidImageError "Failed to analyze meal image") :=
  (analyzeImage_invalid_image "k" .null (.ok "") "Unexpected token" (by decide)).1

/-- For an error carrying no status and no response-status fields, the
wrapper either re-codes it to `invalid_api_key` or `insufficient_quota` by a
keyword match on its message, or copies the original code unchanged. -/
theorem wrap_code_cases (e : JsError) (pre : String) (hs : e.status = none)
    (hr1 : e.responseStatus = none) (hr2 : e.responseStatusCode = none) :
    (wrapGeminiError e pre).code = some "invalid_api_key" ∨
    (wrapGeminiError e pre).code = some "insufficient_quota" ∨
    (wrapGeminiError e pre).code = e.code := by
  unfold wrapGeminiError
  rw [hs, hr1, hr2]
  simp only [orNum]
  split_ifs <;> simp

/-- A status-free error whose message contains no classifier keyword falls
into the wrapper catch-all: the status stays empty and the code is copied. -/
theorem wrap_catchAll (e : JsError) (pre : String) (hs : e.status = none)
    (hr1 : e.responseStatus = none) (hr2 : e.responseStatusCode = none)
    (hk : keywordFree e.message = true) :
    (wrapGeminiError e pre).status = none ∧ (wrapGeminiError e pre).code = e.code := by
  simp only [keywordFree, Bool.and_eq_true, Bool.not_eq_true'] at hk
  obtain ⟨⟨⟨⟨⟨k1, k2⟩, k3⟩, k4⟩, k5⟩, k6⟩ := hk
  unfold wrapGeminiError
  rw [hs, hr1, hr2]
  simp only [orNum]
  rw [if_neg (by simp [k1, k2, k3]), if_neg (by simp [k4, k5, k6])]
  exact ⟨rfl, rfl⟩

/-- A status-free error whose message contains `quota` but none of the 401
keywords is re-classified as 429 `insufficient_quota`. -/
theorem wrap_quota (e : JsError) (pre : String) (hs : e.status = none)
    (hr1 : e.responseStatus = none) (hr2 : e.responseStatusCode = none)
    (hq : jsIncludes (jsToLower e.message) "quota" = true)
    (k1 : jsIncludes (jsToLower e.message) "api key" = false)
    (k2 : jsIncludes (jsToLower e.message) "permission" = false)
    (k3 : jsIncludes (jsToLower e.message) "unauthorized" = false) :
    (wrapGeminiError e pre).status = some 429 ∧
    (wrapGeminiError e pre).code = some "insufficient_quota" := by
  unfold wrapGeminiError
  rw [hs, hr1, hr2]
  simp only [orNum]
  rw [if_neg (by simp [k1, k2, k3]), if_pos (by simp [hq])]
  exact ⟨rfl, rfl⟩

/-- Counterexample to claim C2 as stated: the classifier never produces the
code `invalid_model_response` — the string does not exist anywhere in the
program. The no-substring ParseError is wrapped with no code at all, and a
failing re-parse whose host `SyntaxError` message embeds a snippet
containing `quota` (as Node does since version 19) is re-coded to
`insufficient_quota` — in neither case `invalid_model_response`. -/
theorem parse_error_code_cex :
    extractJsonObject "hello" "Unexpected token" = .error parseFailError ∧
    (wrapGeminiError parseFailError "Failed to analyze meal text").code = none ∧
    ¬ (wrapGeminiError parseFailError "Failed to analyze meal text").code =
      some "invalid_model_response" ∧
    extractJsonObject "bla \x7ba: quota\x7d bla"
        "Unexpected token q, \x7ba: quota\x7d is not valid JSON" =
      .error (reparseFailError "Unexpected token q, \x7ba: quota\x7d is not valid JSON") ∧
    (wrapGeminiError
        (reparseFailError "Unexpected token q, \x7ba: quota\x7d is not valid JSON")
        "Failed to analyze meal text").code = some "insufficient_quota" :=
  ⟨rfl, by decide, by decide, by rfl, by decide⟩

/-- Claim C2 (amended): an extractor ParseError carries no status and no
code, so the classifier can never produce `invalid_model_response` (the
string appears nowhere in the program); its classification depends only on
its message. The no-substring ParseError has the repo-fixed, keyword-free
message, so it always lands in the catch-all (status and code stay
undefined, mapped to the generic 500). The failing re-parse rethrows the
host `SyntaxError`, whose engine-dependent message can embed a snippet of
the input: it lands in the catch-all exactly when no classifier keyword
occurs in the message, while a message containing `quota` (and no 401
keyword) is classified 429 `insufficient_quota` instead. -/
theorem parse_error_classified (text msg : String) (e : JsError)
    (h : extractJsonObject text msg = .error e) :
    (wrapGeminiError e "Failed to analyze meal text").code ≠ some "invalid_model_response" ∧
    e.status = none ∧ e.code = none ∧
    (e = parseFailError ∨ e = reparseFailError msg) ∧
    keywordFree parseFailError.message = true ∧
    (keywordFree e.message = true →
      (wrapGeminiError e "Failed to analyze meal text").status = none ∧
      (wrapGeminiError e "Failed to analyze meal text").code = none) ∧
    (jsIncludes (jsToLower e.message) "quota" = true →
      jsIncludes (jsToLower e.message) "api key" = false →
      jsIncludes (jsToLower e.message) "permission" = false →
      jsIncludes (jsToLower e.message) "unauthorized" = false →
      (wrapGeminiError e "Failed to analyze meal text").status = some 429 ∧
      (wrapGeminiError e "Failed to analyze meal text").code = some "insufficient_quota") := by
  have he : e = parseFailError ∨ e = reparseFailError msg := by
    unfold extractJsonObject at h
    split at h
    · exact absurd h (by simp)
    · split at h
      · injection h with h2
        exact Or.inl h2.symm
      · split at h
        · exact absurd h (by simp)
        · injection h with h2
          exact Or.inr h2.symm
  have hfields : e.status = none ∧ e.code = none ∧ e.responseStatus = none ∧
      e.responseStatusCode = none := by
    rcases he with rfl | rfl
    · exact ⟨rfl, rfl, rfl, rfl⟩
    · exact ⟨rfl, rfl, rfl, rfl⟩
  obtain ⟨hs, hc, hr1, hr2⟩ := hfields
  refine ⟨?_, hs, hc, he, by decide, ?_, ?_⟩
  · rcases wrap_code_cases e "Failed to analyze meal text" hs hr1 hr2 with hh | hh | hh
    · rw [hh]
      decide
    · rw [hh]
      decide
    · rw [hh, hc]
      simp
  · intro hk
    have hca := wrap_catchAll e "Failed to analyze meal text" hs hr1 hr2 hk
    exact ⟨hca.1, by rw [hca.2, hc]⟩
  · intro hq k1 k2 k3
    exact wrap_quota e "Failed to analyze meal text" hs hr1 hr2 hq k1 k2 k3

theorem parse_error_classified_witness :
    (wrapGeminiError parseFailError "Failed to analyze meal text").status = none ∧
    (wrapGeminiError parseFailError "Failed to analyze meal text").code = none ∧
    (wrapGeminiError
        (reparseFailError "Unexpected token q, \x7ba: quota\x7d is not valid JSON")
        "Failed to analyze meal text").status = some 429 ∧
    (wrapGeminiError
        (reparseFailError "Unexpected token q, \x7ba: quota\x7d is not valid JSON")
        "Failed to analyze meal text").code = some "insufficient_quota" := by
  have h1 := parse_error_classified "hello" "Unexpected token" parseFailError (by rfl)
  have h2 := parse_error_classified "bla \x7ba: quota\x7d bla"
    "Unexpected token q, \x7ba: quota\x7d is not valid JSON"
    (reparseFailError "Unexpected token q, \x7ba: quota\x7d is not valid JSON") (by rfl)
  exact ⟨(h1.2.2.2.2.2.1 (by decide)).1, (h1.2.2.2.2.2.1 (by decide)).2,
    (h2.2.2.2.2.2.2 (by decide) (by decide) (by decide) (by decide)).1,
    (h2.2.2.2.2.2.2 (by decide) (by decide) (by decide) (by decide)).2⟩

/-! Character-level facts. -/

theorem digitChar_toNat {d : ℕ} (h : d < 10) : (digitChar d).toNat = 48 + d := by
  interval_cases d <;> decide

theorem isDigitCh_digitChar {d : ℕ} (h : d < 10) : isDigitCh (digitChar d) = true := by
  interval_cases d <;> decide

theorem digitChar_ne_zero_char {d : ℕ} (h : d < 10) (hd : d ≠ 0) : digitChar d ≠ '0' := by
  interval_cases d <;> simp_all <;> decide

theorem digitChar_eq_zero_char : digitChar 0 = '0' := by decide

theorem hexVal_hexDigitChar {d : ℕ} (h : d < 16) : hexVal (hexDigitChar d) = some d := by
  interval_cases d <;> decide

theorem digitChar_not_ws {d : ℕ} (h : d < 10) : jsonWs (digitChar d) = false := by
  interval_cases d <;> decide

/-- The branch tests of `parseValue` on a digit character. -/
theorem digitChar_dispatch {d : ℕ} (h : d < 10) :
    digitChar d ≠ obrace ∧ digitChar d ≠ '[' ∧ digitChar d ≠ '\"' ∧
    digitChar d ≠ 't' ∧ digitChar d ≠ 'f' ∧ digitChar d ≠ 'n' := by
  interval_cases d <;> refine ⟨by decide, by decide, by decide, by decide, by decide, by decide⟩

theorem skipWs_cons_of_not_ws {c : Char} {cs : List Char} (h : jsonWs c = false) :
    skipWs (c :: cs) = c :: cs := by
  simp [skipWs, h]

/-! Digit-list rendering and scanning. -/

theorem readDigits_map_digitChar (ds : List ℕ) (hds : ∀ d ∈ ds, d < 10) :
    ∀ (rest : List Char) (acc cnt : ℕ),
      (∀ c, rest.head? = some c → isDigitCh c = false) →
      readDigits (ds.map digitChar ++ rest) acc cnt =
        (ds.foldl (fun a d => a * 10 + d) acc, cnt + ds.length, rest) := by
  induction ds with
  | nil =>
    intro rest acc cnt hrest
    cases rest with
    | nil => rfl
    | cons c t =>
      have := hrest c rfl
      simp only [List.map_nil, List.nil_append, readDigits]
      rw [if_neg]
      · simp
      · intro hcon
        have : isDigitCh c = true := by simp [isDigitCh, hcon]
        simp_all
  | cons d ds ih =>
    intro rest acc cnt hrest
    have hd : d < 10 := hds d (by simp)
    have htn := digitChar_toNat hd
    simp only [List.map_cons, List.cons_append, readDigits]
    rw [if_pos (by rw [htn]; omega)]
    rw [htn]
    have : 48 + d - 48 = d := by omega
    rw [this]
    simp only [List.append_eq]
    rw [ih (fun x hx => hds x (by simp [hx])) rest _ _ hrest]
    simp [List.foldl_cons]
    omega

theorem natDigitsAux_spec (f : ℕ) : ∀ n, n ≤ f →
    (∀ d ∈ natDigitsAux f n, d < 10) ∧
    natDigitsAux f n ≠ [] ∧
    (∀ acc, (natDigitsAux f n).foldl (fun a d => a * 10 + d) acc =
      acc * 10 ^ (natDigitsAux f n).length + n) ∧
    (∀ k, n < 10 ^ k → 1 ≤ k → (natDigitsAux f n).length ≤ k) ∧
    (1 ≤ n → ∀ h0, (natDigitsAux f n).head? = some h0 → 1 ≤ h0) := by
  induction f with
  | zero =>
    intro n hn
    interval_cases n
    refine ⟨by simp [natDigitsAux], by simp [natDigitsAux], ?_, ?_, ?_⟩
    · intro acc
      simp [natDigitsAux]
    · intro k _ hk
      simpa [natDigitsAux] using hk
    · intro h
      omega
  | succ f ih =>
    intro n hn
    by_cases h10 : n < 10
    · have hunf : natDigitsAux (f + 1) n = [n] := by simp [natDigitsAux, h10]
      refine ⟨?_, ?_, ?_, ?_, ?_⟩
      · intro d hd
        rw [hunf] at hd
        simp at hd
        omega
      · simp [hunf]
      · intro acc
        simp [hunf]
      · intro k _ hk
        simpa [hunf] using hk
      · intro h h0 hh0
        rw [hunf] at hh0
        simp at hh0
        omega
    · have hdiv : n / 10 ≤ f := by
        have : n / 10 < n := Nat.div_lt_self (by omega) (by omega)
        omega
      obtain ⟨ihd, ihne, ihfold, ihlen, ihhead⟩ := ih (n / 10) hdiv
      have hunf : natDigitsAux (f + 1) n = natDigitsAux f (n / 10) ++ [n % 10] := by
        simp [natDigitsAux, h10]
      refine ⟨?_, ?_, ?_, ?_, ?_⟩
      · intro d hd
        rw [hunf] at hd
        rcases List.mem_append.mp hd with h | h
        · exact ihd d h
        · simp at h
          omega
      · rw [hunf]
        simp
      · intro acc
        rw [hunf, List.foldl_append, ihfold acc]
        simp only [List.foldl_cons, List.foldl_nil, List.length_append, List.length_cons,
          List.length_nil]
        have : 10 ^ ((natDigitsAux f (n / 10)).length + (0 + 1)) =
            10 ^ (natDigitsAux f (n / 10)).length * 10 := by ring
        rw [this]
        have hmod := Nat.div_add_mod n 10
        ring_nf
        omega
      · intro k hnk hk
        rcases Nat.lt_or_ge k 2 with hk2 | hk2
        · interval_cases k
          omega
        · have hq : n / 10 < 10 ^ (k - 1) := by
            rw [Nat.div_lt_iff_lt_mul (by omega : 0 < 10)]
            calc n < 10 ^ k := hnk
            _ = 10 ^ (k - 1) * 10 := by
                rw [← pow_succ]
                congr 1
                omega
          have := ihlen (k - 1) hq (by omega)
          rw [hunf]
          simp only [List.length_append, List.length_cons, List.length_nil]
          omega
      · intro _ h0 hh0
        rw [hunf] at hh0
        rcases hne : natDigitsAux f (n / 10) with _ | ⟨a, t⟩
        · exact absurd hne ihne
        · rw [hne] at hh0
          simp at hh0
          have hge : 1 ≤ n / 10 := (Nat.one_le_div_iff (by omega)).mpr (by omega)
          have := ihhead hge a (by rw [hne]; rfl)
          omega

theorem natDigits_lt (n : ℕ) : ∀ d ∈ natDigits n, d < 10 :=
  (natDigitsAux_spec n n le_rfl).1

theorem natDigits_ne_nil (n : ℕ) : natDigits n ≠ [] :=
  (natDigitsAux_spec n n le_rfl).2.1

theorem natDigits_foldl (n acc : ℕ) :
    (natDigits n).foldl (fun a d => a * 10 + d) acc =
      acc * 10 ^ (natDigits n).length + n :=
  (natDigitsAux_spec n n le_rfl).2.2.1 acc

theorem natDigits_length_le (n k : ℕ) (h : n < 10 ^ k) (hk : 1 ≤ k) :
    (natDigits n).length ≤ k :=
  (natDigitsAux_spec n n le_rfl).2.2.2.1 k h hk

theorem natDigits_head_pos {n : ℕ} (h : 1 ≤ n) :
    ∀ h0, (natDigits n).head? = some h0 → 1 ≤ h0 :=
  (natDigitsAux_spec n n le_rfl).2.2.2.2 h

theorem natDigits_zero : natDigits 0 = [0] := rfl

theorem foldl_replicate_zero (m : ℕ) :
    (List.replicate m 0).foldl (fun a d => a * 10 + d) 0 = 0 := by
  induction m with
  | zero => rfl
  | succ m ih => simpa [List.replicate_succ] using ih

theorem padDigits_lt (k fr : ℕ) : ∀ d ∈ padDigits k fr, d < 10 := by
  intro d hd
  rcases List.mem_append.mp hd with h | h
  · have := List.eq_of_mem_replicate h
    omega
  · exact natDigits_lt fr d h

theorem padDigits_length (k fr : ℕ) (h : fr < 10 ^ k) (hk : 1 ≤ k) :
    (padDigits k fr).length = k := by
  have hl := natDigits_length_le fr k h hk
  simp only [padDigits, List.length_append, List.length_replicate]
  omega

theorem padDigits_foldl (k fr : ℕ) :
    (padDigits k fr).foldl (fun a d => a * 10 + d) 0 = fr := by
  rw [padDigits, List.foldl_append, foldl_replicate_zero, natDigits_foldl]
  simp

theorem decExp_dvd {d k : ℕ} (h : decExp d = some k) : d ∣ 10 ^ k := by
  have := List.find?_some h
  exact Nat.dvd_of_mod_eq_zero (by simpa using this)

theorem ip_fr_value (n c0 d k : ℕ) (hc : c0 * d = 10 ^ k) :
    ((n * c0 / 10 ^ k : ℕ) : ℚ) + ((n * c0 % 10 ^ k : ℕ) : ℚ) / (10 : ℚ) ^ k
      = (n : ℚ) / (d : ℚ) := by
  have h10 : ((10 : ℚ) ^ k) ≠ 0 := by positivity
  have hc0n : c0 ≠ 0 := by
    rintro rfl
    simp at hc
    exact absurd hc.symm (pow_ne_zero k (by norm_num))
  have hc0 : (c0 : ℚ) ≠ 0 := by exact_mod_cast hc0n
  have hkey : ((n * c0 / 10 ^ k : ℕ) : ℚ) * (10 : ℚ) ^ k + ((n * c0 % 10 ^ k : ℕ) : ℚ)
      = (n : ℚ) * (c0 : ℚ) := by
    have h2 : ((10 ^ k * (n * c0 / 10 ^ k) + n * c0 % 10 ^ k : ℕ) : ℚ) =
        ((n * c0 : ℕ) : ℚ) := by
      exact_mod_cast congrArg (Nat.cast (R := ℚ)) (Nat.div_add_mod (n * c0) (10 ^ k))
    push_cast at h2 ⊢
    linarith
  have hck : ((10 : ℚ) ^ k) = (d : ℚ) * (c0 : ℚ) := by
    rw [mul_comm]
    exact_mod_cast hc.symm
  calc ((n * c0 / 10 ^ k : ℕ) : ℚ) + ((n * c0 % 10 ^ k : ℕ) : ℚ) / (10 : ℚ) ^ k
      = (((n * c0 / 10 ^ k : ℕ) : ℚ) * (10 : ℚ) ^ k + ((n * c0 % 10 ^ k : ℕ) : ℚ)) /
          (10 : ℚ) ^ k := by
        field_simp
    _ = ((n : ℚ) * (c0 : ℚ)) / (10 : ℚ) ^ k := by rw [hkey]
    _ = ((n : ℚ) * (c0 : ℚ)) / ((d : ℚ) * (c0 : ℚ)) := by rw [hck]
    _ = (n : ℚ) / (d : ℚ) := mul_div_mul_right _ _ hc0

theorem digitChar_ne_minus {d : ℕ} (h : d < 10) : digitChar d ≠ '-' := by
  interval_cases d <;> decide

theorem digitChar_not_dot {d : ℕ} (h : d < 10) : digitChar d ≠ '.' := by
  interval_cases d <;> decide

theorem parseNumber_body (ip fr k : ℕ) (hfr : fr < 10 ^ k) (rest : List Char)
    (hrest : numBoundary rest) :
    parseNumber (renderNat ip ++
      (if k = 0 then [] else '.' :: (padDigits k fr).map digitChar) ++ rest) =
      some ((ip : ℚ) + (fr : ℚ) / (10 : ℚ) ^ k, rest) := by
  have hrest' : ∀ c, rest.head? = some c → isDigitCh c = false := by
    intro c hc
    cases rest with
    | nil => simp at hc
    | cons a b => simp at hc; subst hc; exact hrest.1
  obtain ⟨h0, t, hnd⟩ : ∃ h0 t, natDigits ip = h0 :: t := by
    cases h : natDigits ip with
    | nil => exact absurd h (natDigits_ne_nil ip)
    | cons a b => exact ⟨a, b, rfl⟩
  have hh0 : h0 < 10 := natDigits_lt ip h0 (by rw [hnd]; simp)
  have hrN : renderNat ip = digitChar h0 :: t.map digitChar := by
    rw [renderNat, hnd, List.map_cons]
  -- the continuation after the integer digits
  set frac := (if k = 0 then [] else '.' :: (padDigits k fr).map digitChar) with hfrac
  have hfrachead : ∀ c, (frac ++ rest).head? = some c → isDigitCh c = false := by
    intro c hc
    rw [hfrac] at hc
    by_cases hk : k = 0
    · rw [if_pos hk] at hc
      exact hrest' c (by simpa using hc)
    · rw [if_neg hk] at hc
      simp at hc
      subst hc
      decide
  -- the integer-part scan yields (ip, frac ++ rest)
  have hip : (if digitChar h0 = '0' then ((0 : ℕ), t.map digitChar ++ (frac ++ rest))
      else ((readDigits (digitChar h0 :: (t.map digitChar ++ (frac ++ rest))) 0 0).1,
            (readDigits (digitChar h0 :: (t.map digitChar ++ (frac ++ rest))) 0 0).2.2)) =
      (ip, frac ++ rest) := by
    by_cases hip0 : ip = 0
    · subst hip0
      have : h0 = 0 ∧ t = [] := by
        have : ([0] : List ℕ) = h0 :: t := by rw [← hnd]; rfl
        exact ⟨by injection this with a b; exact a.symm, by injection this with a b; exact b.symm⟩
      obtain ⟨rfl, rfl⟩ := this
      rw [if_pos digitChar_eq_zero_char]
      simp
    · have hpos : 1 ≤ h0 := @natDigits_head_pos ip (by omega) h0 (by rw [hnd]; rfl)
      rw [if_neg (digitChar_ne_zero_char hh0 (by omega))]
      have hlist : digitChar h0 :: (t.map digitChar ++ (frac ++ rest)) =
          (h0 :: t).map digitChar ++ (frac ++ rest) := by simp
      rw [hlist, ← hnd,
        readDigits_map_digitChar (natDigits ip) (natDigits_lt ip) (frac ++ rest) 0 0 hfrachead]
      rw [natDigits_foldl]
      simp
  -- the fraction scan on frac ++ rest
  have hfrp : (match frac ++ rest with
      | c1 :: r1 =>
        if c1 = '.' then
          if (readDigits r1 0 0).2.1 = 0 then none
          else some (((readDigits r1 0 0).1 : ℚ) / 10 ^ (readDigits r1 0 0).2.1,
            (readDigits r1 0 0).2.2)
        else some ((0 : ℚ), c1 :: r1)
      | [] => some ((0 : ℚ), [])) = some ((fr : ℚ) / (10 : ℚ) ^ k, rest) := by
    by_cases hk : k = 0
    · subst hk
      have hfr0 : fr = 0 := by omega
      subst hfr0
      rw [hfrac]
      simp only [if_true, List.nil_append, reduceIte]
      cases rest with
      | nil => norm_num
      | cons a b =>
        have hdot : a ≠ '.' := hrest.2.1
        simp only [if_neg hdot]
        norm_num
    · rw [hfrac, if_neg hk]
      simp only [List.cons_append, if_true, reduceIte]
      rw [readDigits_map_digitChar (padDigits k fr) (padDigits_lt k fr) rest 0 0 hrest']
      rw [padDigits_foldl, padDigits_length k fr hfr (by omega)]
      simp only [Nat.zero_add]
      rw [if_neg (by omega)]
  have hinput : renderNat ip ++ frac ++ rest =
      digitChar h0 :: (t.map digitChar ++ (frac ++ rest)) := by
    rw [hrN]
    simp
  rw [hinput]
  unfold parseNumber
  simp only [if_neg (digitChar_ne_minus hh0)]
  rw [if_neg (show ¬¬(isDigitCh (digitChar h0) = true) by simp [isDigitCh_digitChar hh0])]
  rw [hip]
  simp only []
  rw [hfrp]
  cases rest with
  | nil =>
    simp
  | cons a b =>
    have hne : ¬(a = 'e' ∨ a = 'E') := by
      rintro (rfl | rfl)
      · exact hrest.2.2.1 rfl
      · exact hrest.2.2.2 rfl
    simp only [if_neg hne]
    simp

theorem parseNumber_body_neg (ip fr k : ℕ) (hfr : fr < 10 ^ k) (rest : List Char)
    (hrest : numBoundary rest) :
    parseNumber ('-' :: (renderNat ip ++
      (if k = 0 then [] else '.' :: (padDigits k fr).map digitChar) ++ rest)) =
      some (-((ip : ℚ) + (fr : ℚ) / (10 : ℚ) ^ k), rest) := by
  have hrest' : ∀ c, rest.head? = some c → isDigitCh c = false := by
    intro c hc
    cases rest with
    | nil => simp at hc
    | cons a b => simp at hc; subst hc; exact hrest.1
  obtain ⟨h0, t, hnd⟩ : ∃ h0 t, natDigits ip = h0 :: t := by
    cases h : natDigits ip with
    | nil => exact absurd h (natDigits_ne_nil ip)
    | cons a b => exact ⟨a, b, rfl⟩
  have hh0 : h0 < 10 := natDigits_lt ip h0 (by rw [hnd]; simp)
  have hrN : renderNat ip = digitChar h0 :: t.map digitChar := by
    rw [renderNat, hnd, List.map_cons]
  -- the continuation after the integer digits
  set frac := (if k = 0 then [] else '.' :: (padDigits k fr).map digitChar) with hfrac
  have hfrachead : ∀ c, (frac ++ rest).head? = some c → isDigitCh c = false := by
    intro c hc
    rw [hfrac] at hc
    by_cases hk : k = 0
    · rw [if_pos hk] at hc
      exact hrest' c (by simpa using hc)
    · rw [if_neg hk] at hc
      simp at hc
      subst hc
      decide
  -- the integer-part scan yields (ip, frac ++ rest)
  have hip : (if digitChar h0 = '0' then ((0 : ℕ), t.map digitChar ++ (frac ++ rest))
      else ((readDigits (digitChar h0 :: (t.map digitChar ++ (frac ++ rest))) 0 0).1,
            (readDigits (digitChar h0 :: (t.map digitChar ++ (frac ++ rest))) 0 0).2.2)) =
      (ip, frac ++ rest) := by
    by_cases hip0 : ip = 0
    · subst hip0
      have : h0 = 0 ∧ t = [] := by
        have : ([0] : List ℕ) = h0 :: t := by rw [← hnd]; rfl
        exact ⟨by injection this with a b; exact a.symm, by injection this with a b; exact b.symm⟩
      obtain ⟨rfl, rfl⟩ := this
      rw [if_pos digitChar_eq_zero_char]
      simp
    · have hpos : 1 ≤ h0 := @natDigits_head_pos ip (by omega) h0 (by rw [hnd]; rfl)
      rw [if_neg (digitChar_ne_zero_char hh0 (by omega))]
      have hlist : digitChar h0 :: (t.map digitChar ++ (frac ++ rest)) =
          (h0 :: t).map digitChar ++ (frac ++ rest) := by simp
      rw [hlist, ← hnd,
        readDigits_map_digitChar (natDigits ip) (natDigits_lt ip) (frac ++ rest) 0 0 hfrachead]
      rw [natDigits_foldl]
      simp
  -- the fraction scan on frac ++ rest
  have hfrp : (match frac ++ rest with
      | c1 :: r1 =>
        if c1 = '.' then
          if (readDigits r1 0 0).2.1 = 0 then none
          else some (((readDigits r1 0 0).1 : ℚ) / 10 ^ (readDigits r1 0 0).2.1,
            (readDigits r1 0 0).2.2)
        else some ((0 : ℚ), c1 :: r1)
      | [] => some ((0 : ℚ), [])) = some ((fr : ℚ) / (10 : ℚ) ^ k, rest) := by
    by_cases hk : k = 0
    · subst hk
      have hfr0 : fr = 0 := by omega
      subst hfr0
      rw [hfrac]
      simp only [if_true, List.nil_append, reduceIte]
      cases rest with
      | nil => norm_num
      | cons a b =>
        have hdot : a ≠ '.' := hrest.2.1
        simp only [if_neg hdot]
        norm_num
    · rw [hfrac, if_neg hk]
      simp only [List.cons_append, if_true, reduceIte]
      rw [readDigits_map_digitChar (padDigits k fr) (padDigits_lt k fr) rest 0 0 hrest']
      rw [padDigits_foldl, padDigits_length k fr hfr (by omega)]
      simp only [Nat.zero_add]
      rw [if_neg (by omega)]
  have hinput : '-' :: (renderNat ip ++ frac ++ rest) =
      '-' :: digitChar h0 :: (t.map digitChar ++ (frac ++ rest)) := by
    rw [hrN]
    simp
  rw [hinput]
  unfold parseNumber
  simp only [reduceIte]
  rw [if_neg (show ¬¬(isDigitCh (digitChar h0) = true) by simp [isDigitCh_digitChar hh0])]
  rw [hip]
  simp only []
  rw [hfrp]
  cases rest with
  | nil =>
    simp
  | cons a b =>
    have hne : ¬(a = 'e' ∨ a = 'E') := by
      rintro (rfl | rfl)
      · exact hrest.2.2.1 rfl
      · exact hrest.2.2.2 rfl
    simp only [if_neg hne]
    simp

theorem parseNumber_render (q : ℚ) (k : ℕ) (hk : decExp q.den = some k) (rest : List Char)
    (hrest : numBoundary rest) :
    parseNumber (numToChars q ++ rest) = some (q, rest) := by
  have hdvd : q.den ∣ 10 ^ k := decExp_dvd hk
  have hc : (10 ^ k / q.den) * q.den = 10 ^ k := Nat.div_mul_cancel hdvd
  have hfr : (q.num.natAbs * (10 ^ k / q.den)) % 10 ^ k < 10 ^ k :=
    Nat.mod_lt _ (by positivity)
  have hval := ip_fr_value q.num.natAbs (10 ^ k / q.den) q.den k hc
  have hnum : numToChars q =
      (if q.num < 0 then ['-'] else []) ++
        (renderNat ((q.num.natAbs * (10 ^ k / q.den)) / 10 ^ k) ++
          (if k = 0 then [] else
            '.' :: (padDigits k ((q.num.natAbs * (10 ^ k / q.den)) % 10 ^ k)).map digitChar)) := by
    simp only [numToChars, hk]
    rw [List.append_assoc]
  have hden : ((q.den : ℚ)) ≠ 0 := by
    have := q.den_nz
    exact_mod_cast this
  by_cases hneg : q.num < 0
  · have habs : ((q.num.natAbs : ℚ)) = -((q.num : ℤ) : ℚ) := by
      have h1 : (q.num.natAbs : ℤ) = -q.num := Int.ofNat_natAbs_of_nonpos (by omega)
      have h2 : ((q.num.natAbs : ℤ) : ℚ) = ((-q.num : ℤ) : ℚ) := by rw [h1]
      rw [Int.cast_natCast, Int.cast_neg] at h2
      exact h2
    have hq : -((((q.num.natAbs * (10 ^ k / q.den)) / 10 ^ k : ℕ) : ℚ) +
        (((q.num.natAbs * (10 ^ k / q.den)) % 10 ^ k : ℕ) : ℚ) / (10 : ℚ) ^ k) = q := by
      rw [hval, habs]
      rw [neg_div, neg_neg]
      exact Rat.num_div_den q
    rw [hnum, if_pos hneg]
    have harr : (['-'] ++ (renderNat ((q.num.natAbs * (10 ^ k / q.den)) / 10 ^ k) ++
        (if k = 0 then [] else
          '.' :: (padDigits k ((q.num.natAbs * (10 ^ k / q.den)) % 10 ^ k)).map digitChar))) ++ rest =
        '-' :: (renderNat ((q.num.natAbs * (10 ^ k / q.den)) / 10 ^ k) ++
        (if k = 0 then [] else
          '.' :: (padDigits k ((q.num.natAbs * (10 ^ k / q.den)) % 10 ^ k)).map digitChar) ++ rest) := by
      simp
    rw [harr, parseNumber_body_neg _ _ _ hfr rest hrest, hq]
  · have hpos : (0 : ℤ) ≤ q.num := by omega
    have habs : ((q.num.natAbs : ℚ)) = ((q.num : ℤ) : ℚ) := by
      have h1 : (q.num.natAbs : ℤ) = q.num := Int.natAbs_of_nonneg hpos
      have h2 : ((q.num.natAbs : ℤ) : ℚ) = ((q.num : ℤ) : ℚ) := by rw [h1]
      rw [Int.cast_natCast] at h2
      exact h2
    have hq : ((((q.num.natAbs * (10 ^ k / q.den)) / 10 ^ k : ℕ) : ℚ) +
        (((q.num.natAbs * (10 ^ k / q.den)) % 10 ^ k : ℕ) : ℚ) / (10 : ℚ) ^ k) = q := by
      rw [hval, habs]
      exact Rat.num_div_den q
    rw [hnum, if_neg hneg, List.nil_append,
      parseNumber_body _ _ _ hfr rest hrest, hq]

theorem psa_quote (acc rest : List Char) :
    parseStringAux acc ('\"' :: rest) = some (⟨acc.reverse⟩, rest) := by
  rw [parseStringAux.eq_def]
  simp

theorem psa_esc_quote (acc rest : List Char) :
    parseStringAux acc ('\\' :: '\"' :: rest) = parseStringAux ('\"' :: acc) rest := by
  rw [parseStringAux.eq_def]
  simp

theorem psa_esc_bslash (acc rest : List Char) :
    parseStringAux acc ('\\' :: '\\' :: rest) = parseStringAux ('\\' :: acc) rest := by
  rw [parseStringAux.eq_def]
  simp

theorem psa_esc_b (acc rest : List Char) :
    parseStringAux acc ('\\' :: 'b' :: rest) = parseStringAux ('\x08' :: acc) rest := by
  rw [parseStringAux.eq_def]
  simp

theorem psa_esc_f (acc rest : List Char) :
    parseStringAux acc ('\\' :: 'f' :: rest) = parseStringAux ('\x0c' :: acc) rest := by
  rw [parseStringAux.eq_def]
  simp

theorem psa_esc_n (acc rest : List Char) :
    parseStringAux acc ('\\' :: 'n' :: rest) = parseStringAux ('\n' :: acc) rest := by
  rw [parseStringAux.eq_def]
  simp

theorem psa_esc_r (acc rest : List Char) :
    parseStringAux acc ('\\' :: 'r' :: rest) = parseStringAux ('\r' :: acc) rest := by
  rw [parseStringAux.eq_def]
  simp

theorem psa_esc_t (acc rest : List Char) :
    parseStringAux acc ('\\' :: 't' :: rest) = parseStringAux ('\t' :: acc) rest := by
  rw [parseStringAux.eq_def]
  simp

theorem psa_esc_u (acc rest : List Char) (h1 h2 h3 h4 : Char) (a b c2 d : ℕ)
    (e1 : hexVal h1 = some a) (e2 : hexVal h2 = some b) (e3 : hexVal h3 = some c2)
    (e4 : hexVal h4 = some d) :
    parseStringAux acc ('\\' :: 'u' :: h1 :: h2 :: h3 :: h4 :: rest) =
      parseStringAux (Char.ofNat (((a * 16 + b) * 16 + c2) * 16 + d) :: acc) rest := by
  rw [parseStringAux.eq_def]
  simp [e1, e2, e3, e4]

theorem psa_plain (acc rest : List Char) (c : Char) (h1 : c ≠ '\"') (h2 : c ≠ '\\')
    (h3 : ¬ c.toNat < 32) :
    parseStringAux acc (c :: rest) = parseStringAux (c :: acc) rest := by
  rw [parseStringAux.eq_def]
  simp [h1, h2, h3]

theorem parseStringAux_render (cs : List Char) :
    ∀ (acc rest : List Char),
      parseStringAux acc ((cs.map escapeChar).flatten ++ '\"' :: rest) =
        some (⟨acc.reverse ++ cs⟩, rest) := by
  induction cs with
  | nil =>
    intro acc rest
    simp only [List.map_nil, List.flatten_nil, List.nil_append, List.append_nil]
    exact psa_quote acc rest
  | cons c t ih =>
    intro acc rest
    simp only [List.map_cons, List.flatten_cons, List.append_assoc]
    by_cases h1 : c = '\"'
    · subst h1
      rw [show escapeChar '\"' = ['\\', '\"'] from rfl]
      simp only [List.cons_append, List.nil_append]
      rw [psa_esc_quote, ih]
      simp
    · by_cases h2 : c = '\\'
      · subst h2
        rw [show escapeChar '\\' = ['\\', '\\'] from rfl]
        simp only [List.cons_append, List.nil_append]
        rw [psa_esc_bslash, ih]
        simp
      · by_cases h3 : c = '\x08'
        · subst h3
          rw [show escapeChar '\x08' = ['\\', 'b'] from rfl]
          simp only [List.cons_append, List.nil_append]
          rw [psa_esc_b, ih]
          simp
        · by_cases h4 : c = '\t'
          · subst h4
            rw [show escapeChar '\t' = ['\\', 't'] from rfl]
            simp only [List.cons_append, List.nil_append]
            rw [psa_esc_t, ih]
            simp
          · by_cases h5 : c = '\n'
            · subst h5
              rw [show escapeChar '\n' = ['\\', 'n'] from rfl]
              simp only [List.cons_append, List.nil_append]
              rw [psa_esc_n, ih]
              simp
            · by_cases h6 : c = '\x0c'
              · subst h6
                rw [show escapeChar '\x0c' = ['\\', 'f'] from rfl]
                simp only [List.cons_append, List.nil_append]
                rw [psa_esc_f, ih]
                simp
              · by_cases h7 : c = '\r'
                · subst h7
                  rw [show escapeChar '\r' = ['\\', 'r'] from rfl]
                  simp only [List.cons_append, List.nil_append]
                  rw [psa_esc_r, ih]
                  simp
                · by_cases h8 : c.toNat < 32
                  · have hhi : c.toNat / 16 < 16 := by omega
                    have hlo : c.toNat % 16 < 16 := by omega
                    simp only [escapeChar, if_neg h1, if_neg h2, if_neg h3, if_neg h4,
                      if_neg h5, if_neg h6, if_neg h7, if_pos h8, List.cons_append,
                      List.nil_append]
                    rw [psa_esc_u acc _ '0' '0' _ _ 0 0 (c.toNat / 16) (c.toNat % 16)
                      (by decide) (by decide) (hexVal_hexDigitChar hhi)
                      (hexVal_hexDigitChar hlo)]
                    have hcode : ((0 * 16 + 0) * 16 + c.toNat / 16) * 16 + c.toNat % 16 =
                        c.toNat := by omega
                    rw [hcode, Char.ofNat_toNat, ih]
                    simp
                  · simp only [escapeChar, if_neg h1, if_neg h2, if_neg h3, if_neg h4,
                      if_neg h5, if_neg h6, if_neg h7, if_neg h8, List.cons_append,
                      List.nil_append]
                    rw [psa_plain acc _ c h1 h2 h8, ih]
                    simp

theorem parseStringAux_renderString (s : String) (rest : List Char) :
    parseStringAux [] ((s.toList.map escapeChar).flatten ++ '\"' :: rest) = some (s, rest) := by
  have := parseStringAux_render s.toList [] rest
  simpa using this

theorem stripLit_self : ∀ (l rest : List Char), stripLit l (l ++ rest) = some rest := by
  intro l
  induction l with
  | nil => intro rest; rfl
  | cons c t ih =>
    intro rest
    simp only [List.cons_append, stripLit, if_pos rfl]
    exact ih rest

theorem digitChar_ne_rbracket {d : ℕ} (h : d < 10) : digitChar d ≠ ']' := by
  interval_cases d <;> decide

theorem numToChars_head (q : ℚ) :
    ∃ c cs, numToChars q = c :: cs ∧ jsonWs c = false ∧
      c ≠ obrace ∧ c ≠ '[' ∧ c ≠ '\"' ∧ c ≠ 't' ∧ c ≠ 'f' ∧ c ≠ 'n' ∧ c ≠ ']' ∧
      (c = '-' ∨ isDigitCh c = true) := by
  cases hdk : decExp q.den with
  | none =>
    exact ⟨'0', [], by rw [numToChars, hdk], by decide, by decide, by decide, by decide,
      by decide, by decide, by decide, by decide, Or.inr (by decide)⟩
  | some k =>
    by_cases hneg : q.num < 0
    · refine ⟨'-', renderNat (q.num.natAbs * (10 ^ k / q.den) / 10 ^ k) ++
        (if k = 0 then [] else
          '.' :: (padDigits k (q.num.natAbs * (10 ^ k / q.den) % 10 ^ k)).map digitChar),
        ?_, by decide, by decide, by decide, by decide, by decide, by decide, by decide,
        by decide, Or.inl rfl⟩
      simp [numToChars, hdk, hneg]
    · obtain ⟨h0, t, hnd⟩ : ∃ h0 t,
          natDigits (q.num.natAbs * (10 ^ k / q.den) / 10 ^ k) = h0 :: t := by
        cases h : natDigits (q.num.natAbs * (10 ^ k / q.den) / 10 ^ k) with
        | nil => exact absurd h (natDigits_ne_nil _)
        | cons a b => exact ⟨a, b, rfl⟩
      have hh0 : h0 < 10 := natDigits_lt _ h0 (by rw [hnd]; simp)
      have hdisp := digitChar_dispatch hh0
      refine ⟨digitChar h0, t.map digitChar ++
        (if k = 0 then [] else
          '.' :: (padDigits k (q.num.natAbs * (10 ^ k / q.den) % 10 ^ k)).map digitChar),
        ?_, digitChar_not_ws hh0, hdisp.1, hdisp.2.1, hdisp.2.2.1,
        hdisp.2.2.2.1, hdisp.2.2.2.2.1, hdisp.2.2.2.2.2, digitChar_ne_rbracket hh0,
        Or.inr (isDigitCh_digitChar hh0)⟩
      simp [numToChars, hdk, hneg, renderNat, hnd]

theorem renderVal_head {x : JsVal} (hx : shapedV x = true) :
    ∃ c cs, renderVal x = c :: cs ∧ jsonWs c = false ∧ c ≠ ']' := by
  cases x with
  | undefined => exact absurd hx (by simp [shapedV])
  | nan => exact absurd hx (by simp [shapedV])
  | null => exact ⟨'n', _, rfl, by decide, by decide⟩
  | bool b =>
    cases b with
    | true => exact ⟨'t', _, rfl, by decide, by decide⟩
    | false => exact ⟨'f', _, rfl, by decide, by decide⟩
  | num q =>
    obtain ⟨c, cs, hcs, hws, _, _, _, _, _, _, hrb, _⟩ := numToChars_head q
    exact ⟨c, cs, by rw [renderVal, hcs], hws, hrb⟩
  | str s => exact ⟨'\"', _, rfl, by decide, by decide⟩
  | arr xs => exact ⟨'[', _, rfl, by decide, by decide⟩
  | obj ms => exact ⟨obrace, _, rfl, by decide, by decide⟩

theorem keptMember_of_shaped {k : String} {v : JsVal} (h : shapedV v = true) :
    keptMember (k, v) = true := by
  cases v <;> first | rfl | exact absurd h (by simp [shapedV])

theorem any_kept_of_shaped {ms : List (String × JsVal)} (h : shapedM ms = true)
    (hne : ms ≠ []) : ms.any keptMember = true := by
  cases ms with
  | nil => exact absurd rfl hne
  | cons m rest =>
    obtain ⟨k, v⟩ := m
    rw [shapedM] at h
    simp only [Bool.and_eq_true] at h
    simp [List.any_cons, keptMember_of_shaped h.1]

theorem objInsert_notmem {k : String} {v : JsVal} :
    ∀ (acc : List (String × JsVal)), (∀ kv' ∈ acc, kv'.1 ≠ k) →
      objInsert acc (k, v) = acc ++ [(k, v)] := by
  intro acc
  induction acc with
  | nil => intro _; rfl
  | cons a t ih =>
    intro h
    obtain ⟨k', v'⟩ := a
    rw [objInsert]
    rw [if_neg (h (k', v') (by simp))]
    rw [ih (fun kv hkv => h kv (by simp [hkv]))]
    rfl

theorem foldl_objInsert_nodup :
    ∀ (ms acc : List (String × JsVal)), keysNodup ms = true →
      (∀ kv ∈ ms, ∀ kv' ∈ acc, kv'.1 ≠ kv.1) →
      ms.foldl objInsert acc = acc ++ ms := by
  intro ms
  induction ms with
  | nil => intro acc _ _; simp
  | cons m rest ih =>
    intro acc hnd hdisj
    obtain ⟨k, v⟩ := m
    rw [keysNodup] at hnd
    simp only [Bool.and_eq_true, Bool.not_eq_true', List.any_eq_false] at hnd
    rw [List.foldl_cons]
    rw [objInsert_notmem acc (fun kv' hkv' => hdisj (k, v) (by simp) kv' hkv')]
    rw [ih (acc ++ [(k, v)]) hnd.2]
    · simp
    · intro kv hkv kv' hkv'
      rcases List.mem_append.mp hkv' with h | h
      · exact hdisj kv (by simp [hkv]) kv' h
      · simp only [List.mem_singleton] at h
        subst h
        intro hcon
        have h2 : ¬ (kv.1 = k) := by simpa using hnd.1 kv hkv
        exact h2 hcon.symm

theorem collapseFields_nodup {ms : List (String × JsVal)} (h : keysNodup ms = true) :
    collapseFields ms = ms := by
  rw [collapseFields, foldl_objInsert_nodup ms [] h (by simp)]
  rfl

theorem numBoundary_rbracket (r : List Char) : numBoundary (']' :: r) :=
  ⟨by decide, by decide, by decide, by decide⟩

theorem numBoundary_comma (r : List Char) : numBoundary (',' :: r) :=
  ⟨by decide, by decide, by decide, by decide⟩

theorem numBoundary_cbrace (r : List Char) : numBoundary (cbrace :: r) :=
  ⟨by decide, by decide, by decide, by decide⟩

theorem pdV_pos (x : JsVal) : 1 ≤ pdV x := by
  cases x <;> simp only [pdV] <;> omega

theorem pdL_pos (xs : List JsVal) : 1 ≤ pdL xs := by
  cases xs with
  | nil => simp only [pdL]; omega
  | cons x t => simp only [pdL]; omega

theorem pdM_pos (ms : List (String × JsVal)) : 1 ≤ pdM ms := by
  cases ms with
  | nil => simp only [pdM]; omega
  | cons m t => obtain ⟨k, v⟩ := m; simp only [pdM]; omega

theorem renderParse : ∀ (fuel : ℕ),
    (∀ (x : JsVal) (rest : List Char), shapedV x = true → pdV x ≤ fuel → numBoundary rest →
      parseValue fuel (renderVal x ++ rest) = some (x, rest)) ∧
    (∀ (xs : List JsVal) (rest : List Char), shapedL xs = true → pdL xs < fuel →
      parseItems fuel (renderItems xs ++ ']' :: rest) = some (xs, rest)) ∧
    (∀ (xs : List JsVal) (rest : List Char), xs ≠ [] → shapedL xs = true → pdL xs ≤ fuel →
      parseItemsRest fuel (renderItems xs ++ ']' :: rest) = some (xs, rest)) ∧
    (∀ (ms : List (String × JsVal)) (rest : List Char), shapedM ms = true → pdM ms < fuel →
      parseMembers fuel (renderMembers ms ++ cbrace :: rest) = some (ms, rest)) ∧
    (∀ (ms : List (String × JsVal)) (rest : List Char), ms ≠ [] → shapedM ms = true →
      pdM ms ≤ fuel →
      parseMembersRest fuel (renderMembers ms ++ cbrace :: rest) = some (ms, rest)) := by
  intro fuel
  induction fuel with
  | zero =>
    refine ⟨?_, ?_, ?_, ?_, ?_⟩
    · intro x rest _ hpd _
      exact absurd hpd (by have := pdV_pos x; omega)
    · intro xs rest _ hpd
      omega
    · intro xs rest _ _ hpd
      exact absurd hpd (by have := pdL_pos xs; omega)
    · intro ms rest _ hpd
      omega
    · intro ms rest _ _ hpd
      exact absurd hpd (by have := pdM_pos ms; omega)
  | succ fuel ih =>
    obtain ⟨ihV, ihI, ihIR, ihM, ihMR⟩ := ih
    refine ⟨?_, ?_, ?_, ?_, ?_⟩
    · -- parseValue on a rendered value
      intro x rest hsh hpd hnb
      cases x with
      | undefined => exact absurd hsh (by simp [shapedV])
      | nan => exact absurd hsh (by simp [shapedV])
      | null =>
        rw [show renderVal .null ++ rest = 'n' :: 'u' :: 'l' :: 'l' :: rest from rfl]
        rw [parseValue, skipWs_cons_of_not_ws (by decide)]
        simp only [if_neg (by decide : ¬('n' = obrace)), if_neg (by decide : ¬('n' = '[')),
          if_neg (by decide : ¬('n' = '\"')), if_neg (by decide : ¬('n' = 't')),
          if_neg (by decide : ¬('n' = 'f')), if_pos (rfl : 'n' = 'n')]
        rw [show ('u' :: 'l' :: 'l' :: rest) = ['u', 'l', 'l'] ++ rest from rfl, stripLit_self]
        rfl
      | bool b =>
        cases b with
        | true =>
          rw [show renderVal (.bool true) ++ rest = 't' :: 'r' :: 'u' :: 'e' :: rest from rfl]
          rw [parseValue, skipWs_cons_of_not_ws (by decide)]
          simp only [if_neg (by decide : ¬('t' = obrace)), if_neg (by decide : ¬('t' = '[')),
            if_neg (by decide : ¬('t' = '\"')), if_pos (rfl : 't' = 't')]
          rw [show ('r' :: 'u' :: 'e' :: rest) = ['r', 'u', 'e'] ++ rest from rfl, stripLit_self]
          rfl
        | false =>
          rw [show renderVal (.bool false) ++ rest = 'f' :: 'a' :: 'l' :: 's' :: 'e' :: rest
            from rfl]
          rw [parseValue, skipWs_cons_of_not_ws (by decide)]
          simp only [if_neg (by decide : ¬('f' = obrace)), if_neg (by decide : ¬('f' = '[')),
            if_neg (by decide : ¬('f' = '\"')), if_neg (by decide : ¬('f' = 't')),
            if_pos (rfl : 'f' = 'f')]
          rw [show ('a' :: 'l' :: 's' :: 'e' :: rest) = ['a', 'l', 's', 'e'] ++ rest from rfl,
            stripLit_self]
          rfl
      | num q =>
        obtain ⟨c, cs, hcs, hws, hob, hlb, hqc, htc, hfc, hnc, _, hdig⟩ := numToChars_head q
        have hinput : renderVal (.num q) ++ rest = c :: (cs ++ rest) := by
          rw [renderVal, hcs]
          simp
        rw [hinput, parseValue, skipWs_cons_of_not_ws hws]
        simp only [if_neg hob, if_neg hlb, if_neg hqc, if_neg htc, if_neg hfc, if_neg hnc,
          if_pos hdig]
        rw [show c :: (cs ++ rest) = numToChars q ++ rest by rw [hcs]; simp]
        rw [shapedV] at hsh
        obtain ⟨k, hk⟩ := Option.isSome_iff_exists.mp hsh
        rw [parseNumber_render q k hk rest hnb]
        rfl
      | str s =>
        have hinput : renderVal (.str s) ++ rest =
            '\"' :: ((s.toList.map escapeChar).flatten ++ '\"' :: rest) := by
          rw [renderVal, renderString]
          simp
        rw [hinput, parseValue, skipWs_cons_of_not_ws (by decide)]
        simp only [if_neg (by decide : ¬('\"' = obrace)), if_neg (by decide : ¬('\"' = '[')),
          if_pos (rfl : '\"' = '\"')]
        rw [parseStringAux_renderString s rest]
        simp
      | arr xs =>
        rw [shapedV] at hsh
        have hpd' : pdL xs < fuel := by rw [pdV] at hpd; omega
        have hinput : renderVal (.arr xs) ++ rest = '[' :: (renderItems xs ++ ']' :: rest) := by
          rw [renderVal]
          simp
        rw [hinput, parseValue, skipWs_cons_of_not_ws (by decide)]
        simp only [if_neg (by decide : ¬('[' = obrace)), if_pos (rfl : '[' = '[')]
        rw [ihI xs rest hsh hpd']
        simp
      | obj ms =>
        rw [shapedV] at hsh
        simp only [Bool.and_eq_true] at hsh
        have hpd' : pdM ms < fuel := by rw [pdV] at hpd; omega
        have hinput : renderVal (.obj ms) ++ rest =
            obrace :: (renderMembers ms ++ cbrace :: rest) := by
          rw [renderVal]
          simp
        rw [hinput, parseValue, skipWs_cons_of_not_ws (by decide : jsonWs obrace = false)]
        simp only [if_pos (rfl : obrace = obrace)]
        rw [ihM ms rest hsh.2 hpd']
        show some (JsVal.obj (collapseFields ms), rest) = some (.obj ms, rest)
        rw [collapseFields_nodup hsh.1]
    · -- parseItems on rendered items
      intro xs rest hsh hpd
      cases xs with
      | nil =>
        rw [show renderItems [] ++ ']' :: rest = ']' :: rest from rfl]
        rw [parseItems, skipWs_cons_of_not_ws (by decide)]
        simp
      | cons x xs' =>
        have hshx : shapedV x = true ∧ shapedL xs' = true := by
          rw [shapedL] at hsh
          simpa using hsh
        obtain ⟨c, cs, hcs, hws, hrb⟩ := renderVal_head hshx.1
        have hex : ∃ r, renderItems (x :: xs') = c :: r := by
          cases xs' with
          | nil => exact ⟨cs, by rw [renderItems, hcs]⟩
          | cons y t =>
            refine ⟨cs ++ ',' :: renderItems (y :: t), ?_⟩
            rw [renderItems]
            · rw [hcs]
              simp
            · exact fun h => List.noConfusion h
        obtain ⟨r, hr⟩ := hex
        have hlist : renderItems (x :: xs') ++ ']' :: rest = c :: (r ++ ']' :: rest) := by
          rw [hr]
          simp
        rw [parseItems, hlist, skipWs_cons_of_not_ws hws]
        simp only [if_neg hrb]
        rw [← hlist]
        exact ihIR (x :: xs') rest (List.cons_ne_nil _ _) hsh (by omega)
    · -- parseItemsRest on rendered items
      intro xs rest hne hsh hpd
      cases xs with
      | nil => exact absurd rfl hne
      | cons x xs' =>
        have hshx : shapedV x = true ∧ shapedL xs' = true := by
          rw [shapedL] at hsh
          simpa using hsh
        have hpdx : pdV x ≤ fuel := by
          simp only [pdL] at hpd
          have := pdL_pos xs'
          omega
        cases xs' with
        | nil =>
          rw [show renderItems [x] ++ ']' :: rest = renderVal x ++ ']' :: rest from
            by rw [renderItems]]
          rw [parseItemsRest, ihV x (']' :: rest) hshx.1 hpdx (numBoundary_rbracket rest)]
          simp only []
          rw [skipWs_cons_of_not_ws (by decide)]
          simp
        | cons y t =>
          have hri : renderItems (x :: y :: t) ++ ']' :: rest =
              renderVal x ++ ',' :: (renderItems (y :: t) ++ ']' :: rest) := by
            rw [renderItems]
            · simp
            · exact fun h => List.noConfusion h
          rw [parseItemsRest, hri,
            ihV x (',' :: (renderItems (y :: t) ++ ']' :: rest)) hshx.1 hpdx
              (numBoundary_comma _)]
          simp only []
          rw [skipWs_cons_of_not_ws (by decide : jsonWs ',' = false)]
          simp only [if_pos (rfl : ',' = ',')]
          rw [ihIR (y :: t) rest (List.cons_ne_nil _ _) hshx.2
            (by simp only [pdL] at hpd ⊢; omega)]
          simp
    · -- parseMembers on rendered members
      intro ms rest hsh hpd
      cases ms with
      | nil =>
        rw [show renderMembers [] ++ cbrace :: rest = cbrace :: rest from rfl]
        rw [parseMembers, skipWs_cons_of_not_ws (by decide : jsonWs cbrace = false)]
        simp
      | cons m ms' =>
        obtain ⟨k, v⟩ := m
        have hshv : shapedV v = true ∧ shapedM ms' = true := by
          rw [shapedM] at hsh
          simpa using hsh
        have hkept := keptMember_of_shaped (k := k) hshv.1
        have hex : ∃ r, renderMembers ((k, v) :: ms') = '\"' :: r := by
          refine ⟨(k.toList.map escapeChar).flatten ++ ['\"'] ++ ':' :: renderVal v ++
            (if ms'.any keptMember then ',' :: renderMembers ms' else []), ?_⟩
          rw [renderMembers, if_pos hkept, renderString]
          simp
        obtain ⟨r, hr⟩ := hex
        have hlist : renderMembers ((k, v) :: ms') ++ cbrace :: rest =
            '\"' :: (r ++ cbrace :: rest) := by
          rw [hr]
          simp
        rw [parseMembers, hlist, skipWs_cons_of_not_ws (by decide)]
        simp only [if_neg (by decide : ¬('\"' = cbrace))]
        rw [← hlist]
        exact ihMR ((k, v) :: ms') rest (List.cons_ne_nil _ _) hsh (by omega)
    · -- parseMembersRest on rendered members
      intro ms rest hne hsh hpd
      cases ms with
      | nil => exact absurd rfl hne
      | cons m ms' =>
        obtain ⟨k, v⟩ := m
        have hshv : shapedV v = true ∧ shapedM ms' = true := by
          rw [shapedM] at hsh
          simpa using hsh
        have hkept := keptMember_of_shaped (k := k) hshv.1
        have hpdv : pdV v ≤ fuel := by
          simp only [pdM] at hpd
          have := pdM_pos ms'
          omega
        cases ms' with
        | nil =>
          have hrm : renderMembers [(k, v)] ++ cbrace :: rest =
              '\"' :: ((k.toList.map escapeChar).flatten ++
                '\"' :: (':' :: (renderVal v ++ cbrace :: rest))) := by
            rw [renderMembers, if_pos hkept, renderString]
            simp
          rw [parseMembersRest, hrm, skipWs_cons_of_not_ws (by decide)]
          simp only [if_pos (rfl : '\"' = '\"')]
          rw [parseStringAux_renderString k (':' :: (renderVal v ++ cbrace :: rest))]
          simp only []
          rw [skipWs_cons_of_not_ws (by decide : jsonWs ':' = false)]
          simp only [if_pos (rfl : ':' = ':')]
          rw [ihV v (cbrace :: rest) hshv.1 hpdv (numBoundary_cbrace rest)]
          simp only []
          rw [skipWs_cons_of_not_ws (by decide : jsonWs cbrace = false)]
          simp only [if_neg (by decide : ¬(cbrace = ','))]
          simp
        | cons m2 t =>
          have hany : (m2 :: t).any keptMember = true :=
            any_kept_of_shaped hshv.2 (by simp)
          have hrm : renderMembers ((k, v) :: m2 :: t) ++ cbrace :: rest =
              '\"' :: ((k.toList.map escapeChar).flatten ++
                '\"' :: (':' :: (renderVal v ++
                  ',' :: (renderMembers (m2 :: t) ++ cbrace :: rest)))) := by
            rw [renderMembers, if_pos hkept, if_pos hany, renderString]
            simp
          rw [parseMembersRest, hrm, skipWs_cons_of_not_ws (by decide)]
          simp only [if_pos (rfl : '\"' = '\"')]
          rw [parseStringAux_renderString k
            (':' :: (renderVal v ++ ',' :: (renderMembers (m2 :: t) ++ cbrace :: rest)))]
          simp only []
          rw [skipWs_cons_of_not_ws (by decide : jsonWs ':' = false)]
          simp only [if_pos (rfl : ':' = ':')]
          rw [ihV v (',' :: (renderMembers (m2 :: t) ++ cbrace :: rest)) hshv.1 hpdv
            (numBoundary_comma _)]
          simp only []
          rw [skipWs_cons_of_not_ws (by decide : jsonWs ',' = false)]
          simp only [if_pos (rfl : ',' = ',')]
          rw [ihMR (m2 :: t) rest (List.cons_ne_nil _ _) hshv.2
            (by simp only [pdM] at hpd ⊢; omega)]
          simp

theorem pdBound : ∀ (n : ℕ),
    (∀ x : JsVal, pdV x ≤ n → shapedV x = true → pdV x ≤ 2 * (renderVal x).length) ∧
    (∀ xs : List JsVal, pdL xs ≤ n → shapedL xs = true →
      pdL xs ≤ 2 + 2 * (renderItems xs).length) ∧
    (∀ ms : List (String × JsVal), pdM ms ≤ n → shapedM ms = true →
      pdM ms ≤ 2 + 2 * (renderMembers ms).length) := by
  intro n
  induction n with
  | zero =>
    refine ⟨?_, ?_, ?_⟩
    · intro x hpd _
      exact absurd hpd (by have := pdV_pos x; omega)
    · intro xs hpd _
      exact absurd hpd (by have := pdL_pos xs; omega)
    · intro ms hpd _
      exact absurd hpd (by have := pdM_pos ms; omega)
  | succ n ih =>
    obtain ⟨ihV, ihL, ihM⟩ := ih
    refine ⟨?_, ?_, ?_⟩
    · intro x hpd hsh
      cases x with
      | undefined => exact absurd hsh (by simp [shapedV])
      | nan => exact absurd hsh (by simp [shapedV])
      | null => simp [pdV, renderVal]
      | bool b => cases b <;> simp [pdV, renderVal]
      | num q =>
        obtain ⟨c, cs, hcs, -⟩ := numToChars_head q
        rw [show renderVal (.num q) = numToChars q from rfl, hcs]
        simp [pdV]
        omega
      | str s =>
        rw [show renderVal (.str s) = renderString s from rfl, renderString]
        simp [pdV]
        omega
      | arr xs =>
        rw [shapedV] at hsh
        simp only [pdV] at hpd ⊢
        have hb := ihL xs (by omega) hsh
        rw [renderVal]
        simp only [List.length_cons, List.length_append, List.length_singleton]
        omega
      | obj ms =>
        rw [shapedV] at hsh
        simp only [Bool.and_eq_true] at hsh
        simp only [pdV] at hpd ⊢
        have hb := ihM ms (by omega) hsh.2
        rw [renderVal]
        simp only [List.length_cons, List.length_append, List.length_singleton]
        omega
    · intro xs hpd hsh
      cases xs with
      | nil => simp [pdL]; omega
      | cons x xs' =>
        have hshx : shapedV x = true ∧ shapedL xs' = true := by
          rw [shapedL] at hsh
          simpa using hsh
        simp only [pdL] at hpd ⊢
        have hvx := pdV_pos x
        have hlx := pdL_pos xs'
        have hbx := ihV x (by omega) hshx.1
        cases xs' with
        | nil =>
          rw [show renderItems [x] = renderVal x from by rw [renderItems]]
          simp only [pdL] at hpd ⊢
          omega
        | cons y t =>
          have hbl := ihL (y :: t) (by omega) hshx.2
          have hri : renderItems (x :: y :: t) = renderVal x ++ ',' :: renderItems (y :: t) := by
            rw [renderItems]
            exact fun h => List.noConfusion h
          rw [hri]
          simp only [List.length_append, List.length_cons]
          omega
    · intro ms hpd hsh
      cases ms with
      | nil => simp [pdM]; omega
      | cons m ms' =>
        obtain ⟨k, v⟩ := m
        have hshv : shapedV v = true ∧ shapedM ms' = true := by
          rw [shapedM] at hsh
          simpa using hsh
        have hkept := keptMember_of_shaped (k := k) hshv.1
        simp only [pdM] at hpd ⊢
        have hvv := pdV_pos v
        have hmm := pdM_pos ms'
        have hbv := ihV v (by omega) hshv.1
        cases ms' with
        | nil =>
          rw [renderMembers, if_pos hkept]
          simp only [List.any_nil, Bool.false_eq_true, if_neg (by simp : ¬(False = True))]
          simp only [pdM] at hpd ⊢
          simp only [List.length_append, List.length_cons, List.append_nil]
          omega
        | cons m2 t =>
          have hany : (m2 :: t).any keptMember = true := any_kept_of_shaped hshv.2 (by simp)
          have hbm := ihM (m2 :: t) (by omega) hshv.2
          rw [renderMembers, if_pos hkept, if_pos hany]
          simp only [List.length_append, List.length_cons]
          omega

theorem jsonParse_stringify (x : JsVal) (hx : shapedV x = true) :
    jsonParse (jsonStringify x) = some x := by
  have hb := (pdBound (pdV x)).1 x le_rfl hx
  have hlen : (jsonStringify x).length = (renderVal x).length := rfl
  have hfuel : pdV x ≤ 2 * (jsonStringify x).length + 2 := by rw [hlen]; omega
  have hp := (renderParse (2 * (jsonStringify x).length + 2)).1 x [] hx hfuel trivial
  rw [List.append_nil] at hp
  rw [jsonParse, show (jsonStringify x).toList = renderVal x from rfl, hp]
  simp [skipWs]


theorem findIdx_skip (p : Char → Bool) :
    ∀ (l1 : List Char), (∀ c ∈ l1, p c = false) → ∀ (l2 : List Char) (i : ℕ),
      List.findIdx? p (l1 ++ l2) i = List.findIdx? p l2 (i + l1.length) := by
  intro l1
  induction l1 with
  | nil =>
    intro _ l2 i
    simp
  | cons a t ih =>
    intro h l2 i
    rw [List.cons_append, List.findIdx?]
    rw [if_neg (by rw [h a (by simp)]; simp)]
    rw [ih (fun c hc => h c (by simp [hc])) l2 (i + 1)]
    congr 1
    simp
    omega

theorem findIdx_head (p : Char → Bool) (c : Char) (rest : List Char) (hc : p c = true)
    (i : ℕ) : List.findIdx? p (c :: rest) i = some i := by
  rw [List.findIdx?, if_pos hc]

theorem extractBrace_embedded (pre suf inner : String) (mid : List Char)
    (hpre : braceFree pre = true) (hsuf : braceFree suf = true)
    (hin : inner.toList = obrace :: mid ++ [cbrace]) :
    extractBraceSubstring (pre ++ inner ++ suf) = some inner := by
  have hpre' : ∀ c ∈ pre.toList, ¬(c = obrace ∨ c = cbrace) := by
    intro c hc
    have := hpre
    simp only [braceFree, List.all_eq_true, decide_eq_true_eq] at this
    exact this c hc
  have hsuf' : ∀ c ∈ suf.toList, ¬(c = obrace ∨ c = cbrace) := by
    intro c hc
    have := hsuf
    simp only [braceFree, List.all_eq_true, decide_eq_true_eq] at this
    exact this c hc
  have hcs : (pre ++ inner ++ suf).toList =
      pre.toList ++ ((obrace :: (mid ++ [cbrace])) ++ suf.toList) := by
    rw [show (pre ++ inner ++ suf).toList = pre.toList ++ inner.toList ++ suf.toList from rfl,
      hin]
    simp
  have hfind1 : ((pre ++ inner ++ suf).toList).findIdx? (fun c => c = obrace) =
      some pre.toList.length := by
    rw [hcs, findIdx_skip _ pre.toList
      (fun c hc => by simpa using fun h => hpre' c hc (Or.inl h)) _ 0]
    rw [List.cons_append, findIdx_head _ obrace _ (by decide) _]
    simp
  have hrev : ((pre ++ inner ++ suf).toList).reverse =
      suf.toList.reverse ++ ((cbrace :: (mid.reverse ++ [obrace])) ++ pre.toList.reverse) := by
    rw [hcs]
    simp
  have hfind2 : ((pre ++ inner ++ suf).toList).reverse.findIdx? (fun c => c = cbrace) =
      some suf.toList.length := by
    rw [hrev, findIdx_skip _ suf.toList.reverse
      (fun c hc => by
        have hc' : c ∈ suf.toList := List.mem_reverse.mp hc
        simpa using fun h => hsuf' c hc' (Or.inr h)) _ 0]
    rw [List.cons_append, findIdx_head _ cbrace _ (by decide) _]
    simp
  have hlen : ((pre ++ inner ++ suf).toList).length =
      pre.toList.length + (mid.length + 2) + suf.toList.length := by
    rw [hcs]
    simp
    omega
  rw [extractBraceSubstring]
  simp only [hfind1, hfind2]
  rw [hlen]
  have hj : pre.toList.length + (mid.length + 2) + suf.toList.length - 1 -
      suf.toList.length = pre.toList.length + mid.length + 1 := by omega
  rw [hj, if_pos (by omega)]
  have hdrop : (((pre ++ inner ++ suf).toList).drop pre.toList.length) =
      (obrace :: (mid ++ [cbrace])) ++ suf.toList := by
    rw [hcs, List.drop_left]
  have htake : ((obrace :: (mid ++ [cbrace])) ++ suf.toList).take
      (pre.toList.length + mid.length + 1 - pre.toList.length + 1) =
      obrace :: (mid ++ [cbrace]) := by
    have hlen2 : (obrace :: (mid ++ [cbrace])).length =
        pre.toList.length + mid.length + 1 - pre.toList.length + 1 := by
      simp
      omega
    rw [← hlen2, List.take_left]
  rw [hdrop, htake]
  rw [show (obrace :: (mid ++ [cbrace])) = inner.toList from by rw [hin]; simp]
  rfl

/-- Claim C8 counterexample: the brace-free prose `[` / `]` around the
serialization of the empty object makes the decorated text itself
strict-parse as a one-element array, so `extractJsonObject` returns that
array instead of the embedded object — the unconditional prose half of the
claim is false. -/
theorem extractJson_prose_cex :
    jsonObjShaped (.obj []) = true ∧
    braceFree "[" = true ∧ braceFree "]" = true ∧
    extractJsonObject ("[" ++ jsonStringify (.obj []) ++ "]") "Unexpected token" =
      .ok (.arr [.obj []]) ∧
    JsVal.arr [.obj []] ≠ .obj [] :=
  ⟨by decide, by decide, by decide, by rfl, fun h => JsVal.noConfusion h⟩

/-- Claim C8 (amended): for every JSON-object-shaped value `x`,
`extractJsonObject (jsonStringify x)` returns `x`; and when `x`'s
serialization is surrounded by brace-free prose, the extractor also returns
`x` provided the decorated text does not itself parse as JSON in the strict
first attempt (without that proviso the prose half fails, see the
counterexample). -/
theorem extractJson_roundtrip (x : JsVal) (hx : jsonObjShaped x = true)
    (pre suf reparseMsg : String) (hpre : braceFree pre = true)
    (hsuf : braceFree suf = true)
    (hstrict : jsonParse (pre ++ jsonStringify x ++ suf) = none) :
    extractJsonObject (jsonStringify x) reparseMsg = .ok x ∧
    extractJsonObject (pre ++ jsonStringify x ++ suf) reparseMsg = .ok x := by
  have hsh : shapedV x = true := by
    cases x <;> first | exact hx | exact absurd hx (by simp [jsonObjShaped])
  obtain ⟨ms, rfl⟩ : ∃ ms, x = .obj ms := by
    cases x with
    | obj ms => exact ⟨ms, rfl⟩
    | undefined => exact absurd hx (by simp [jsonObjShaped])
    | null => exact absurd hx (by simp [jsonObjShaped])
    | bool b => exact absurd hx (by simp [jsonObjShaped])
    | num q => exact absurd hx (by simp [jsonObjShaped])
    | nan => exact absurd hx (by simp [jsonObjShaped])
    | str s => exact absurd hx (by simp [jsonObjShaped])
    | arr xs => exact absurd hx (by simp [jsonObjShaped])
  constructor
  · rw [extractJsonObject, jsonParse_stringify _ hsh]
  · rw [extractJsonObject, hstrict]
    simp only []
    have hin : (jsonStringify (JsVal.obj ms)).toList =
        obrace :: renderMembers ms ++ [cbrace] := by
      rw [show (jsonStringify (JsVal.obj ms)).toList = renderVal (.obj ms) from rfl, renderVal]
    rw [extractBrace_embedded pre suf _ (renderMembers ms) hpre hsuf hin]
    simp only []
    rw [jsonParse_stringify _ hsh]

theorem extractJson_roundtrip_witness :
    jsonObjShaped (.obj [("dishes", .arr [])]) = true ∧
    braceFree "Here you go:\n" = true ∧ braceFree "\nThanks" = true ∧
    jsonParse ("Here you go:\n" ++ jsonStringify (.obj [("dishes", .arr [])]) ++ "\nThanks") =
      none ∧
    extractJsonObject (jsonStringify (.obj [("dishes", .arr [])])) "Unexpected token" =
      .ok (.obj [("dishes", .arr [])]) ∧
    extractJsonObject
        ("Here you go:\n" ++ jsonStringify (.obj [("dishes", .arr [])]) ++ "\nThanks")
        "Unexpected token" =
      .ok (.obj [("dishes", .arr [])]) :=
  ⟨by decide, by decide, by decide, by rfl,
    (extractJson_roundtrip (.obj [("dishes", .arr [])]) (by decide) "Here you go:\n" "\nThanks"
      "Unexpected token" (by decide) (by decide) (by rfl)).1,
    (extractJson_roundtrip (.obj [("dishes", .arr [])]) (by decide) "Here you go:\n" "\nThanks"
      "Unexpected token" (by decide) (by decide) (by rfl)).2⟩
